import Mathlib

/-!
Verification development for the `syncdate` media date restore/sync tool
(`src/syncdate.py`).  The timestamp parser/formatter, the best-tag selector,
the metadata and filesystem writer adapters, the restore and sync
orchestrators and the source index are embedded as executable Lean
definitions.  Strings are modelled as `List Char`; the external `exiftool`
process is modelled as an oracle mapping a command line to a captured
result.  Theorems about the claims of the specification follow the
definitions.
-/

namespace Syncdate

/-- Strings of the Python program are modelled as lists of characters. -/
abbrev LC := List Char

/-- ASCII whitespace, the characters matched by the regex class used by the
Python `re` module and by `str.strip` on ASCII data. -/
def isSpaceChar (c : Char) : Bool :=
  c.toNat = 32 || c.toNat = 9 || c.toNat = 10 || c.toNat = 13 ||
  c.toNat = 11 || c.toNat = 12

/-- ASCII decimal digit, the class matched by the regex escape for digits. -/
def isDigitCh (c : Char) : Bool :=
  decide (48 ≤ c.toNat) && decide (c.toNat ≤ 57)

/-- Python `str.strip()`: drop whitespace from both ends. -/
def pyStrip (l : LC) : LC :=
  ((l.dropWhile isSpaceChar).reverse.dropWhile isSpaceChar).reverse

/-- Python `str.lower()` restricted to ASCII letters. -/
def pyLower (l : LC) : LC :=
  l.map (fun c => if 65 ≤ c.toNat ∧ c.toNat ≤ 90 then Char.ofNat (c.toNat + 32) else c)

/-- Python `str.upper()` restricted to ASCII letters. -/
def pyUpper (l : LC) : LC :=
  l.map (fun c => if 97 ≤ c.toNat ∧ c.toNat ≤ 122 then Char.ofNat (c.toNat - 32) else c)

/-- Value of a string of decimal digits, as computed by Python `int`. -/
def digitsVal (l : LC) : Nat :=
  l.foldl (fun a c => 10 * a + (c.toNat - 48)) 0

/-- The character for a single decimal digit. -/
def digitChar (n : Nat) : Char := Char.ofNat (48 + n)

/-- Two-digit zero-padded rendering, as produced by `strftime` two-digit fields. -/
def pad2 (n : Nat) : LC := [digitChar (n / 10 % 10), digitChar (n % 10)]

/-- Four-digit zero-padded rendering, as produced by `strftime` for the year. -/
def pad4 (n : Nat) : LC :=
  [digitChar (n / 1000 % 10), digitChar (n / 100 % 10),
   digitChar (n / 10 % 10), digitChar (n % 10)]

/-! ### Paths and media kinds -/

/-- A filesystem path as far as the tool inspects it: the stem and the
extension (with its leading dot), plus whether the path is a regular file.
The path name is the stem followed by the extension. -/
structure MPath where
  stem : LC
  suffix : LC
  isFile : Bool
deriving DecidableEq, Repr

/-- `Path.name`: the final component, stem plus extension. -/
def pname (p : MPath) : LC := p.stem ++ p.suffix

/-- Video file extensions (`VIDEO_EXTS`). -/
def VIDEO_EXTS : List LC :=
  [".mp4".toList, ".mov".toList, ".m4v".toList, ".3gp".toList, ".3g2".toList,
   ".avi".toList, ".mts".toList, ".m2ts".toList, ".wmv".toList]

/-- Photo file extensions (`PHOTO_EXTS`). -/
def PHOTO_EXTS : List LC :=
  [".jpg".toList, ".jpeg".toList, ".heic".toList, ".heif".toList, ".png".toList,
   ".tif".toList, ".tiff".toList, ".webp".toList, ".dng".toList, ".cr2".toList,
   ".nef".toList, ".arw".toList, ".rw2".toList]

/-- `is_hidden`: the name starts with a dot. -/
def is_hidden (p : MPath) : Bool :=
  match pname p with
  | c :: _ => c = '.'
  | [] => false

/-- `is_video`: lowercased extension is a video extension. -/
def is_video (p : MPath) : Bool := VIDEO_EXTS.contains (pyLower p.suffix)

/-- `is_photo`: lowercased extension is a photo extension. -/
def is_photo (p : MPath) : Bool := PHOTO_EXTS.contains (pyLower p.suffix)

/-! ### Tag priorities -/

/-- `VIDEO_TAG_PRIORITY`. -/
def VIDEO_TAG_PRIORITY : List LC :=
  ["QuickTime:CreationDate".toList,
   "ItemList:ContentCreateDate".toList,
   "Keys:CreationDate".toList,
   "EXIF:CreateDate".toList,
   "EXIF:DateTimeOriginal".toList,
   "QuickTime:CreateDate".toList,
   "QuickTime:MediaCreateDate".toList,
   "QuickTime:TrackCreateDate".toList,
   "H264:DateTimeOriginal".toList,
   "XMP:CreateDate".toList,
   "XMP:DateCreated".toList]

/-- `PHOTO_TAG_PRIORITY`. -/
def PHOTO_TAG_PRIORITY : List LC :=
  ["EXIF:DateTimeOriginal".toList,
   "EXIF:CreateDate".toList,
   "XMP:CreateDate".toList,
   "XMP:DateCreated".toList,
   "QuickTime:CreationDate".toList,
   "PNG:CreationTime".toList]

/-! ### Timestamp parsing

The regex
`^(\d{4}):(\d{2}):(\d{2})\s+(\d{2}):(\d{2}):(\d{2})(\.\d+)?(Z|[+-]\d{2}:\d{2})?$`
is embedded as a deterministic matcher; determinism is faithful because at
every optional or repeated position the follow sets are disjoint. -/

/-- Consume exactly `n` decimal digits. -/
def takeDigits : Nat → LC → Option (LC × LC)
  | 0, l => some ([], l)
  | _ + 1, [] => none
  | n + 1, c :: l =>
    if isDigitCh c then (takeDigits n l).map (fun dr => (c :: dr.1, dr.2)) else none

/-- Consume one expected character. -/
def expectChar (c : Char) : LC → Option LC
  | [] => none
  | x :: l => if x = c then some l else none

/-- Consume one or more whitespace characters (the `\s+` group). -/
def takeSpaces1 : LC → Option LC
  | [] => none
  | c :: l => if isSpaceChar c then some (l.dropWhile isSpaceChar) else none

/-- Consume the optional fractional-seconds group `(\.\d+)?`; the group value
includes the leading dot, as in the Python group capture. -/
def matchFrac (l : LC) : Option LC × LC :=
  match l with
  | c0 :: c1 :: rest =>
    if c0 = '.' ∧ isDigitCh c1 then
      (some ('.' :: (c1 :: rest).takeWhile isDigitCh), (c1 :: rest).dropWhile isDigitCh)
    else (none, l)
  | _ => (none, l)

/-- Consume the optional timezone group `(Z|[+-]\d{2}:\d{2})?` which must end
the string; returns the captured suffix. -/
def matchTzEnd (l : LC) : Option (Option LC) :=
  match l with
  | [] => some none
  | c :: rest =>
    if c = 'Z' ∧ rest = [] then some (some ['Z'])
    else if c = '+' ∨ c = '-' then do
      let (h, r1) ← takeDigits 2 rest
      let r2 ← expectChar ':' r1
      let (m, r3) ← takeDigits 2 r2
      if r3 = [] then some (some (c :: (h ++ ':' :: m))) else none
    else none

/-- The captured groups of the datetime regex. -/
structure DTGroups where
  gy : LC
  gmo : LC
  gd : LC
  ghh : LC
  gmi : LC
  gss : LC
  gfrac : Option LC
  gtzs : Option LC
deriving DecidableEq, Repr

/-- Match the full datetime regex (`DT_RE`) against a string. -/
def matchDT (l : LC) : Option DTGroups := do
  let (y, r) ← takeDigits 4 l
  let r ← expectChar ':' r
  let (mo, r) ← takeDigits 2 r
  let r ← expectChar ':' r
  let (d, r) ← takeDigits 2 r
  let r ← takeSpaces1 r
  let (hh, r) ← takeDigits 2 r
  let r ← expectChar ':' r
  let (mi, r) ← takeDigits 2 r
  let r ← expectChar ':' r
  let (ss, r) ← takeDigits 2 r
  let (frac, r) := matchFrac r
  let tzs ← matchTzEnd r
  pure ⟨y, mo, d, hh, mi, ss, frac, tzs⟩

/-! ### The datetime value and calendar arithmetic -/

/-- Leap year rule of the proleptic Gregorian calendar, as in Python. -/
def isLeapYear (y : Nat) : Bool :=
  y % 4 = 0 && (y % 100 ≠ 0 || y % 400 = 0)

/-- Days in a month. -/
def daysInMonth (y m : Nat) : Nat :=
  if m = 2 then (if isLeapYear y then 29 else 28)
  else if m = 4 ∨ m = 6 ∨ m = 9 ∨ m = 11 then 30
  else 31

/-- The validation performed by the `datetime` constructor. -/
def validRanges (y mo d hh mi ss : Nat) : Bool :=
  decide (1 ≤ y) && decide (y ≤ 9999) &&
  decide (1 ≤ mo) && decide (mo ≤ 12) &&
  decide (1 ≤ d) && decide (d ≤ daysInMonth y mo) &&
  decide (hh ≤ 23) && decide (mi ≤ 59) && decide (ss ≤ 59)

/-- A Python `datetime` value: wall-clock components plus an optional fixed
UTC offset in minutes (`tzinfo`); `none` is a naive datetime. -/
structure PyDatetime where
  year : Nat
  month : Nat
  day : Nat
  hour : Nat
  minute : Nat
  second : Nat
  tz : Option Int
deriving DecidableEq, Repr

/-- The `datetime(...)` constructor with its range validation. -/
def mkDatetime (y mo d hh mi ss : Nat) : Option PyDatetime :=
  if validRanges y mo d hh mi ss then some ⟨y, mo, d, hh, mi, ss, none⟩ else none

/-- `timezone(...)` construction from a captured suffix: `Z` is UTC, a signed
`HH:MM` suffix is a fixed offset which must be strictly within one day,
otherwise the constructor raises. -/
def tzOffsetOfSuffix : LC → Option Int
  | ['Z'] => some 0
  | [s, h1, h2, _, m1, m2] =>
    let off : Int := (digitsVal [h1, h2] : Nat) * 60 + (digitsVal [m1, m2] : Nat)
    let off := if s = '+' then off else -off
    if off.natAbs < 1440 then some off else none
  | _ => none

/-- Days before January 1 of year `y`, counting from year 1 (`_ymd2ord`). -/
def daysBeforeYear (y : Nat) : Nat :=
  let py := y - 1
  365 * py + py / 4 - py / 100 + py / 400

/-- Days in year `y` before month `m`. -/
def daysBeforeMonth (y m : Nat) : Nat :=
  (List.range 12).foldl (fun acc i => if i + 1 < m then acc + daysInMonth y (i + 1) else acc) 0

/-- Proleptic Gregorian ordinal of a date, day 1 is January 1 of year 1. -/
def toOrdinal (y m d : Nat) : Nat := daysBeforeYear y + daysBeforeMonth y m + d

/-- Locate the month containing the `n`-th (0-based) day of year `y`. -/
def findMonthAux (y : Nat) : Nat → Nat → Nat → Nat × Nat
  | 0, m, n => (m, n)
  | fuel + 1, m, n =>
    if n < daysInMonth y m then (m, n) else findMonthAux y fuel (m + 1) (n - daysInMonth y m)

/-- Inverse of `toOrdinal` (`_ord2ymd`), following the CPython algorithm. -/
def ordToDate (nn : Nat) : Nat × Nat × Nat :=
  let n := nn - 1
  let n400 := n / 146097
  let r400 := n % 146097
  let n100 := r400 / 36524
  let r100 := r400 % 36524
  let n4 := r100 / 1461
  let r4 := r100 % 1461
  let n1 := r4 / 365
  let r1 := r4 % 365
  let year := n400 * 400 + 1 + n100 * 100 + n4 * 4 + n1
  if n1 = 4 ∨ n100 = 4 then (year - 1, 12, 31)
  else
    let mr := findMonthAux year 11 1 r1
    (year, mr.1, mr.2 + 1)

/-- `dt + timedelta(hours=h)`: wall-clock addition with calendar rollover,
preserving `tzinfo`; fails (OverflowError) when the result leaves the
supported year range. -/
def addHours (dt : PyDatetime) (h : Int) : Option PyDatetime :=
  let total : Int := Int.ofNat dt.hour + h
  let dayDelta := Int.ediv total 24
  let newHour := (Int.emod total 24).toNat
  let ord : Int := Int.ofNat (toOrdinal dt.year dt.month dt.day) + dayDelta
  if 1 ≤ ord ∧ ord ≤ 3652059 then
    let ymd := ordToDate ord.toNat
    some { dt with year := ymd.1, month := ymd.2.1, day := ymd.2.2, hour := newHour }
  else none

/-! ### `parse_exif_dt`, `fmt_exif_dt`, `apply_time_adjustments` -/

/-- The result triple of `parse_exif_dt`: the datetime, the fractional
seconds substring, the timezone suffix substring. -/
structure ParsedDT where
  dt : PyDatetime
  frac : Option LC
  tzs : Option LC
deriving DecidableEq, Repr

/-- The `tzinfo` of the parsed datetime from the optional captured suffix:
no suffix leaves the datetime naive, a suffix builds a `timezone` (which can
itself fail on an out-of-range offset). -/
def tzField : Option LC → Option (Option Int)
  | none => some none
  | some t => (tzOffsetOfSuffix t).map some

/-- `parse_exif_dt`: strip the input, match the datetime regex, build the
datetime (validating ranges) and attach the timezone; `none` models the
raised ValueError for unsupported formats. -/
def parse_exif_dt (s : LC) : Option ParsedDT := do
  let g ← matchDT (pyStrip s)
  let dt0 ← mkDatetime (digitsVal g.gy) (digitsVal g.gmo) (digitsVal g.gd)
      (digitsVal g.ghh) (digitsVal g.gmi) (digitsVal g.gss)
  let tzv ← tzField g.gtzs
  pure ⟨{ dt0 with tz := tzv }, g.gfrac, g.gtzs⟩

/-- `fmt_exif_dt`: render the wall clock zero-padded, then append the
fractional substring and the timezone suffix verbatim. -/
def fmt_exif_dt (dt : PyDatetime) (frac : Option LC) (tz_suffix : Option LC) : LC :=
  (pad4 dt.year ++ ':' :: pad2 dt.month ++ ':' :: pad2 dt.day ++
   ' ' :: pad2 dt.hour ++ ':' :: pad2 dt.minute ++ ':' :: pad2 dt.second)
  ++ frac.getD [] ++ tz_suffix.getD []

/-- The offset-override shape check `^[+-]\d{2}:\d{2}$`. -/
def offsetFormRe (l : LC) : Bool :=
  match l with
  | [s, a, b, c, d, e] =>
    (s = '+' || s = '-') && isDigitCh a && isDigitCh b && c = ':' &&
    isDigitCh d && isDigitCh e
  | _ => false

/-- The error taxonomy of `apply_time_adjustments`: unsupported datetime
format, invalid offset override, and calendar overflow from the shift. -/
inductive AdjError where
  | unsupportedFormat
  | invalidOffset
  | overflow
deriving DecidableEq, Repr

/-- `apply_time_adjustments`: parse, shift the wall clock by whole hours if a
nonzero shift is requested, then, if a non-empty offset override is given,
validate its stripped upper-cased form and replace the suffix without
converting the wall clock. -/
def apply_time_adjustments (value : LC) (shift_hours : Int) (set_offset : Option LC) :
    Except AdjError LC :=
  match parse_exif_dt value with
  | none => .error .unsupportedFormat
  | some p =>
    let shifted : Except AdjError PyDatetime :=
      if shift_hours ≠ 0 then
        match addHours p.dt shift_hours with
        | none => .error .overflow
        | some dt => .ok dt
      else .ok p.dt
    match shifted with
    | .error e => .error e
    | .ok dt =>
      match set_offset with
      | none => .ok (fmt_exif_dt dt p.frac p.tzs)
      | some so0 =>
        if so0 = [] then .ok (fmt_exif_dt dt p.frac p.tzs)
        else
          let so := pyUpper (pyStrip so0)
          if so = ['Z'] || offsetFormRe so then .ok (fmt_exif_dt dt p.frac (some so))
          else .error .invalidOffset

/-! ### Tag selection (`pick_best_time_tag`) -/

/-- `TZ_RE` searched at the end of a value: the value ends in the UTC marker
or in a signed `HH:MM` offset. -/
def hasTzSuffix (l : LC) : Bool :=
  match l.reverse with
  | 'Z' :: _ => true
  | e :: d :: ':' :: b :: a :: s :: _ =>
    (s = '+' || s = '-') && isDigitCh a && isDigitCh b && isDigitCh d && isDigitCh e
  | _ => false

/-- The ordered candidate tag names for a path: the kind's priority list
(union of both lists for other kinds) plus the filesystem-modify fallback. -/
def baseTags (p : MPath) : List LC :=
  (if is_video p then VIDEO_TAG_PRIORITY
   else if is_photo p then PHOTO_TAG_PRIORITY
   else VIDEO_TAG_PRIORITY ++ PHOTO_TAG_PRIORITY) ++ ["System:FileModifyDate".toList]

/-- The candidates: priority tags present in the tag set with a non-empty
stripped value, in priority order, paired with their stripped values. -/
def candidatesOf (tags : List (LC × LC)) (p : MPath) : List (LC × LC) :=
  (baseTags p).filterMap (fun tag =>
    match List.lookup tag tags with
    | some v => if pyStrip v = [] then none else some (tag, pyStrip v)
    | none => none)

/-- The last-resort scan over all fields whose name ends in `CreateDate` or
`DateTimeOriginal` with a non-empty value. -/
def lastResortScan (tags : List (LC × LC)) : Option (LC × LC) :=
  (tags.find? (fun kv =>
    (("CreateDate".toList).isSuffixOf kv.1 || ("DateTimeOriginal".toList).isSuffixOf kv.1) &&
    !(pyStrip kv.2).isEmpty)).map (fun kv => (kv.1, pyStrip kv.2))

/-- `pick_best_time_tag`: first candidate with an explicit timezone suffix,
else the first candidate, else the last-resort scan. -/
def pick_best_time_tag (tags : List (LC × LC)) (p : MPath) : Option (LC × LC) :=
  match (candidatesOf tags p).find? (fun c => hasTzSuffix c.2) with
  | some c => some c
  | none =>
    match candidatesOf tags p with
    | c :: _ => some c
    | [] => lastResortScan tags

/-! ### Writer adapters

The external `exiftool` process is modelled as an oracle from a command line
(list of arguments) to a captured result: `.ok output` for exit status zero,
`.error output` for the captured output of a failing invocation. -/

/-- A command line passed to the external tool. -/
abbrev Cmd := List LC

/-- The outcome of one external tool invocation. -/
abbrev ToolResult := Except LC LC

/-- The argument list built by `set_metadata_dates_from_value`: three field
assignments for photos, eight for everything else. -/
def set_metadata_args (p : MPath) (value : LC) : List LC :=
  if is_photo p then
    ["-overwrite_original".toList,
     "-DateTimeOriginal=".toList ++ value,
     "-CreateDate=".toList ++ value,
     "-ModifyDate=".toList ++ value,
     pname p]
  else
    ["-overwrite_original".toList,
     "-QuickTime:CreateDate=".toList ++ value,
     "-QuickTime:ModifyDate=".toList ++ value,
     "-MediaCreateDate=".toList ++ value,
     "-TrackCreateDate=".toList ++ value,
     "-TrackModifyDate=".toList ++ value,
     "-ModifyDate=".toList ++ value,
     "-ItemList:ContentCreateDate=".toList ++ value,
     "-Keys:CreationDate=".toList ++ value,
     pname p]

/-- The full metadata-write command. -/
def metaCmd (p : MPath) (value : LC) : Cmd := "exiftool".toList :: set_metadata_args p value

/-- `set_metadata_dates_from_value`: one external invocation; success returns
the stripped output, failure returns the captured output. -/
def set_metadata_dates_from_value (run : Cmd → ToolResult) (p : MPath) (value : LC) :
    Bool × LC :=
  match run (metaCmd p value) with
  | .ok out => (true, pyStrip out)
  | .error e => (false, e)

/-- The filesystem write command setting both create and modify times. -/
def fsCmdBoth (p : MPath) (value : LC) : Cmd :=
  ["exiftool".toList, "-overwrite_original".toList,
   "-FileCreateDate=".toList ++ value, "-FileModifyDate=".toList ++ value, pname p]

/-- The degraded filesystem write command setting only the modify time. -/
def fsCmdModOnly (p : MPath) (value : LC) : Cmd :=
  ["exiftool".toList, "-overwrite_original".toList,
   "-FileModifyDate=".toList ++ value, pname p]

/-- `set_filesystem_dates_from_value`: try create+modify; on failure retry
modify only, annotating success; on double failure concatenate both outputs. -/
def set_filesystem_dates_from_value (run : Cmd → ToolResult) (p : MPath) (value : LC) :
    Bool × LC :=
  match run (fsCmdBoth p value) with
  | .ok out => (true, pyStrip out)
  | .error msg =>
    match run (fsCmdModOnly p value) with
    | .ok out2 => (true, "(create date unsupported) ".toList ++ pyStrip out2)
    | .error e2 => (false, msg ++ '\n' :: e2)

/-- Message text of the exception raised by `apply_time_adjustments`, as
caught and rendered by the generic per-file handler. -/
def adjErrMsg : AdjError → LC
  | .unsupportedFormat => "Unsupported datetime format".toList
  | .invalidOffset => "Invalid --set-offset (use Z or +-HH:MM)".toList
  | .overflow => "date value out of range".toList

/-! ### Restore-from-self orchestrator -/

/-- `restore_from_own_metadata` for one file.  `q` is the outcome of the
`exiftool` JSON query of the file's time tags (`.error` models the
CalledProcessError caught by the handler); `run` is the external tool oracle
used by the writers. -/
def restore_from_own_metadata (q : Except LC (List (LC × LC))) (run : Cmd → ToolResult)
    (p : MPath) (shift_hours : Int) (set_offset : Option LC) : LC × Bool × LC :=
  match q with
  | .error e => (pname p, false, "ExifTool error: ".toList ++ e)
  | .ok tags =>
    match pick_best_time_tag tags p with
    | none => (pname p, false, "No usable time tag found".toList)
    | some tv =>
      match apply_time_adjustments tv.2 shift_hours set_offset with
      | .error err => (pname p, false, "Error: ".toList ++ adjErrMsg err)
      | .ok adj =>
        match set_metadata_dates_from_value run p adj with
        | (false, m1) =>
          (pname p, false,
           "Set metadata failed from ".toList ++ tv.1 ++ '=' :: tv.2 ++
           " -> ".toList ++ adj ++ ": ".toList ++ m1)
        | (true, _) =>
          match set_filesystem_dates_from_value run p adj with
          | (false, m2) => (pname p, false, "Metadata OK, filesystem FAILED: ".toList ++ m2)
          | (true, _) =>
            (pname p, true,
             "Set metadata+filesystem from ".toList ++ tv.1 ++ " = ".toList ++ tv.2 ++
             " -> ".toList ++ adj)

/-! ### Sync-from-source orchestrator -/

/-- The copy-as-is metadata command of `sync_copy_metadata_from_src`. -/
def syncMetaCmd (src dst : MPath) : Cmd :=
  ["exiftool".toList, "-overwrite_original".toList,
   "-TagsFromFile".toList, pname src,
   "-QuickTime:CreateDate>QuickTime:CreateDate".toList,
   "-QuickTime:ModifyDate>QuickTime:ModifyDate".toList,
   "-MediaCreateDate>MediaCreateDate".toList,
   "-TrackCreateDate>TrackCreateDate".toList,
   "-TrackModifyDate>TrackModifyDate".toList,
   "-EXIF:CreateDate>CreateDate".toList,
   "-EXIF:DateTimeOriginal>DateTimeOriginal".toList,
   "-EXIF:ModifyDate>ModifyDate".toList,
   "-ItemList:ContentCreateDate>ItemList:ContentCreateDate".toList,
   "-Keys:CreationDate>Keys:CreationDate".toList,
   "-UserData:CreationDate>UserData:CreationDate".toList,
   pname dst]

/-- `sync_copy_metadata_from_src`. -/
def sync_copy_metadata_from_src (run : Cmd → ToolResult) (src dst : MPath) : Bool × LC :=
  match run (syncMetaCmd src dst) with
  | .ok out => (true, pyStrip out)
  | .error e => (false, e)

/-- The filesystem-timestamp copy command (create and modify). -/
def syncFsCmdBoth (src dst : MPath) : Cmd :=
  ["exiftool".toList, "-overwrite_original".toList,
   "-TagsFromFile".toList, pname src,
   "-FileCreateDate<FileCreateDate".toList,
   "-FileModifyDate<FileModifyDate".toList,
   pname dst]

/-- The degraded filesystem-timestamp copy command (modify only). -/
def syncFsCmdMod (src dst : MPath) : Cmd :=
  ["exiftool".toList, "-overwrite_original".toList,
   "-TagsFromFile".toList, pname src,
   "-FileModifyDate<FileModifyDate".toList,
   pname dst]

/-- `sync_copy_filesystem_dates_from_src`, with the same two-step retry as
the value-based filesystem writer. -/
def sync_copy_filesystem_dates_from_src (run : Cmd → ToolResult) (src dst : MPath) :
    Bool × LC :=
  match run (syncFsCmdBoth src dst) with
  | .ok out => (true, pyStrip out)
  | .error msg =>
    match run (syncFsCmdMod src dst) with
    | .ok out2 => (true, "(create date unsupported) ".toList ++ pyStrip out2)
    | .error e2 => (false, msg ++ '\n' :: e2)

/-- Python truthiness of the optional offset-override string. -/
def optTruthy : Option LC → Bool
  | none => false
  | some s => !s.isEmpty

/-- `sync_from_source`: copy metadata then filesystem dates as-is; when a
shift or offset override is requested, re-query the destination, pick its
best tag, adjust, and overwrite the destination's metadata and filesystem
dates.  `q` is the JSON time-tag query oracle; an `.error` result models the
exception that propagates out of the function uncaught. -/
def sync_from_source (run : Cmd → ToolResult) (q : MPath → Except LC (List (LC × LC)))
    (src dst : MPath) (shift_hours : Int) (set_offset : Option LC) :
    Except LC (Bool × LC) :=
  match sync_copy_metadata_from_src run src dst with
  | (false, m1) => .ok (false, "Copy metadata failed: ".toList ++ m1)
  | (true, _) =>
    match sync_copy_filesystem_dates_from_src run src dst with
    | (false, m2) => .ok (false, "Copy filesystem dates failed: ".toList ++ m2)
    | (true, _) =>
      if shift_hours ≠ 0 || optTruthy set_offset then
        match q dst with
        | .error e => .error e
        | .ok tags =>
          match pick_best_time_tag tags dst with
          | none => .ok (false, "Post-sync shift requested but no usable time tag found".toList)
          | some tv =>
            match apply_time_adjustments tv.2 shift_hours set_offset with
            | .error err => .error (adjErrMsg err)
            | .ok adj =>
              let okm := (set_metadata_dates_from_value run dst adj).1
              let okf := (set_filesystem_dates_from_value run dst adj).1
              if okm && okf then .ok (true, "Synced then shifted -> ".toList ++ adj)
              else .ok (false, "Post-sync shift failed to apply".toList)
      else .ok (true, "Synced metadata + filesystem (exact copy)".toList)

/-! ### Source index -/

/-- Append a path at the end of the per-extension list of one stem bucket. -/
def bucketInsert (b : List (LC × List MPath)) (ext : LC) (p : MPath) :
    List (LC × List MPath) :=
  match b with
  | [] => [(ext, [p])]
  | (e, ps) :: rest =>
    if e = ext then (e, ps ++ [p]) :: rest else (e, ps) :: bucketInsert rest ext p

/-- The two-level source index: stem key to extension to paths, with the
insertion order of Python dicts modelled by append-at-end association lists. -/
abbrev SrcIndex := List (LC × List (LC × List MPath))

/-- Insert one path under its stem key and extension. -/
def indexInsert (idx : SrcIndex) (key ext : LC) (p : MPath) : SrcIndex :=
  match idx with
  | [] => [(key, [(ext, [p])])]
  | (k, b) :: rest =>
    if k = key then (k, bucketInsert b ext p) :: rest else (k, b) :: indexInsert rest key ext p

/-- The stem key used for indexing and lookup. -/
def stemKey (p : MPath) (case_insensitive : Bool) : LC :=
  if case_insensitive then pyLower p.stem else p.stem

/-- `build_source_index`: index every non-hidden regular file by its
(case-normalized-if-requested) stem and its lowercased extension. -/
def build_source_index (files : List MPath) (case_insensitive : Bool) : SrcIndex :=
  files.foldl (fun idx p =>
    if p.isFile && !is_hidden p then
      indexInsert idx (stemKey p case_insensitive) (pyLower p.suffix) p
    else idx) []

/-- Lookup in an insertion-ordered association list, the membership test and
subscript access of a Python dict. -/
def alookup {β : Type} (k : LC) : List (LC × β) → Option β
  | [] => none
  | (k0, v) :: rest => if k0 = k then some v else alookup k rest

/-- The list of paths stored under a stem key and extension. -/
def idxBucket (idx : SrcIndex) (key ext : LC) : List MPath :=
  (alookup ext ((alookup key idx).getD [])).getD []

/-- `find_source_match`: exact stem-plus-lowercased-extension match first,
else the first non-empty extension bucket under the stem, else nothing. -/
def find_source_match (idx : SrcIndex) (target : MPath) (case_insensitive : Bool) :
    Option MPath :=
  let key := stemKey target case_insensitive
  let ext := pyLower target.suffix
  match alookup key idx with
  | none => none
  | some b =>
    match alookup ext b with
    | some (p :: _) => some p
    | _ =>
      match b.find? (fun el => !el.2.isEmpty) with
      | some el => el.2.head?
      | none => none

/-! ### Shape predicates and the spec-side pattern

These describe, independently of the matcher algorithm, what it means for a
string to have the shape `YYYY:MM:DD HH:MM:SS[.fraction][Z|±HH:MM]` that the
specification requires. -/

/-- Every character is whitespace. -/
def allSpace (l : LC) : Prop := ∀ c ∈ l, isSpaceChar c = true

/-- Every character is a decimal digit. -/
def allDigits (l : LC) : Prop := ∀ c ∈ l, isDigitCh c = true

/-- A non-empty whitespace run. -/
def spaceRun (sp : LC) : Prop := sp ≠ [] ∧ allSpace sp

/-- The string content of an optional captured group. -/
def optStr (o : Option LC) : LC := o.getD []

/-- Shape of a fractional-seconds capture: a dot followed by one or more
digits. -/
def fracShape : Option LC → Prop
  | none => True
  | some f => ∃ ds, f = '.' :: ds ∧ ds ≠ [] ∧ allDigits ds

/-- Shape of a timezone suffix capture: the UTC marker or a signed
two-digit colon two-digit offset. -/
def tzShape (t : LC) : Prop :=
  t = ['Z'] ∨
  ∃ sg h1 h2 m1 m2, t = [sg, h1, h2, ':', m1, m2] ∧ (sg = '+' ∨ sg = '-') ∧
    isDigitCh h1 = true ∧ isDigitCh h2 = true ∧ isDigitCh m1 = true ∧ isDigitCh m2 = true

/-- Shape of an optional timezone suffix capture. -/
def tzShapeOpt : Option LC → Prop
  | none => True
  | some t => tzShape t

/-- Well-shaped captured groups: digit-group lengths, fraction shape and
timezone shape. -/
def groupsWF (g : DTGroups) : Prop :=
  g.gy.length = 4 ∧ allDigits g.gy ∧
  g.gmo.length = 2 ∧ allDigits g.gmo ∧
  g.gd.length = 2 ∧ allDigits g.gd ∧
  g.ghh.length = 2 ∧ allDigits g.ghh ∧
  g.gmi.length = 2 ∧ allDigits g.gmi ∧
  g.gss.length = 2 ∧ allDigits g.gss ∧
  fracShape g.gfrac ∧ tzShapeOpt g.gtzs

/-- The string spelled by captured groups with date-time separator `sp`. -/
def rendersWith (g : DTGroups) (sp : LC) : LC :=
  g.gy ++ ':' :: g.gmo ++ ':' :: g.gd ++ sp ++
  g.ghh ++ ':' :: g.gmi ++ ':' :: g.gss ++ optStr g.gfrac ++ optStr g.gtzs

/-- Offset-range validity of an optional timezone suffix. -/
def tzRangeChk : Option LC → Bool
  | none => true
  | some t => (tzOffsetOfSuffix t).isSome

/-- Range validity of captured groups: the `datetime` ranges plus, when an
offset suffix is present, an offset strictly within one day. -/
def rangesChk (g : DTGroups) : Bool :=
  validRanges (digitsVal g.gy) (digitsVal g.gmo) (digitsVal g.gd)
    (digitsVal g.ghh) (digitsVal g.gmi) (digitsVal g.gss) &&
  tzRangeChk g.gtzs

/-- Strict matcher for the pattern exactly as the specification words it:
a single space separates date and time and no surrounding whitespace is
allowed. -/
def strictMatchTs (l : LC) : Option DTGroups := do
  let (y, r) ← takeDigits 4 l
  let r ← expectChar ':' r
  let (mo, r) ← takeDigits 2 r
  let r ← expectChar ':' r
  let (d, r) ← takeDigits 2 r
  let r ← expectChar ' ' r
  let (hh, r) ← takeDigits 2 r
  let r ← expectChar ':' r
  let (mi, r) ← takeDigits 2 r
  let r ← expectChar ':' r
  let (ss, r) ← takeDigits 2 r
  let (frac, r) := matchFrac r
  let tzs ← matchTzEnd r
  pure ⟨y, mo, d, hh, mi, ss, frac, tzs⟩

/-- The specification's required pattern
`YYYY:MM:DD HH:MM:SS[.fraction][Z|±HH:MM]` with valid numeric ranges: the
strict shape together with the range checks. -/
def specPatternOK (l : LC) : Bool :=
  match strictMatchTs l with
  | some g => rangesChk g
  | none => false

/-- The relaxed form of the specification pattern that the parser actually
accepts: surrounding whitespace is ignored and any non-empty whitespace run
may separate the date from the time; numeric ranges must still be valid. -/
def MatchesRelaxedPattern (s : LC) : Prop :=
  ∃ g sp w1 w2, groupsWF g ∧ rangesChk g = true ∧ spaceRun sp ∧
    allSpace w1 ∧ allSpace w2 ∧ s = w1 ++ rendersWith g sp ++ w2

/-- The metadata field names written for a photo. -/
def PHOTO_WRITE_FIELDS : List LC :=
  ["DateTimeOriginal".toList, "CreateDate".toList, "ModifyDate".toList]

/-- The metadata field names written for a video or other file. -/
def VIDEO_WRITE_FIELDS : List LC :=
  ["QuickTime:CreateDate".toList, "QuickTime:ModifyDate".toList,
   "MediaCreateDate".toList, "TrackCreateDate".toList, "TrackModifyDate".toList,
   "ModifyDate".toList, "ItemList:ContentCreateDate".toList, "Keys:CreationDate".toList]

/-- One field-assignment argument as passed to the external tool. -/
def assignArg (field value : LC) : LC := '-' :: field ++ '=' :: value

/-- The field-assignment arguments of a command: those containing `=`. -/
def assignmentsOf (args : List LC) : List LC := args.filter (fun a => a.contains '=')

/-! ## Lemmas about the matcher combinators -/

theorem digit_not_space {c : Char} (h : isDigitCh c = true) : isSpaceChar c = false := by
  simp only [isDigitCh, Bool.and_eq_true, decide_eq_true_eq] at h
  simp only [isSpaceChar, Bool.or_eq_false_iff, decide_eq_false_iff_not]
  omega

theorem digitChar_val {c : Char} (h : isDigitCh c = true) :
    digitChar (c.toNat - 48) = c := by
  simp only [isDigitCh, Bool.and_eq_true, decide_eq_true_eq] at h
  have : 48 + (c.toNat - 48) = c.toNat := by omega
  rw [digitChar, this, Char.ofNat_toNat]

theorem takeDigits_sound :
    ∀ (n : Nat) (l d r : LC), takeDigits n l = some (d, r) →
      l = d ++ r ∧ d.length = n ∧ allDigits d := by
  intro n
  induction n with
  | zero =>
    intro l d r h
    have h2 : (some (([] : LC), l) : Option (LC × LC)) = some (d, r) := h
    simp only [Option.some.injEq, Prod.mk.injEq] at h2
    obtain ⟨rfl, rfl⟩ := h2
    exact ⟨rfl, rfl, by simp [allDigits]⟩
  | succ n ih =>
    intro l d r h
    match l with
    | [] => simp [takeDigits] at h
    | c :: l =>
      simp only [takeDigits] at h
      by_cases hc : isDigitCh c = true
      · rw [if_pos hc] at h
        match htd : takeDigits n l with
        | none => rw [htd] at h; simp at h
        | some (d0, r0) =>
          rw [htd] at h
          simp only [Option.map_some', Option.some.injEq, Prod.mk.injEq] at h
          obtain ⟨hl, hlen, hdig⟩ := ih l d0 r0 htd
          obtain ⟨rfl, rfl⟩ := h
          subst hl
          refine ⟨rfl, by simp [hlen], ?_⟩
          intro x hx
          rcases List.mem_cons.mp hx with rfl | hx
          · exact hc
          · exact hdig x hx
      · rw [if_neg hc] at h; simp at h

theorem takeDigits_complete :
    ∀ (d r : LC), allDigits d → takeDigits d.length (d ++ r) = some (d, r) := by
  intro d
  induction d with
  | nil => intro r _; simp [takeDigits]
  | cons c d ih =>
    intro r hd
    have hc : isDigitCh c = true := hd c (List.mem_cons_self ..)
    have hrest : allDigits d := fun x hx => hd x (List.mem_cons_of_mem _ hx)
    show (if isDigitCh c = true then
        (takeDigits d.length (d ++ r)).map (fun dr => (c :: dr.1, dr.2))
      else none) = some (c :: d, r)
    rw [if_pos hc, ih r hrest, Option.map_some']

theorem expectChar_sound {c : Char} {l r : LC} (h : expectChar c l = some r) :
    l = c :: r := by
  match l with
  | [] => simp [expectChar] at h
  | x :: t =>
    simp only [expectChar] at h
    by_cases hx : x = c
    · rw [if_pos hx] at h
      simp only [Option.some.injEq] at h
      subst hx h; rfl
    · rw [if_neg hx] at h; simp at h

theorem expectChar_complete (c : Char) (r : LC) : expectChar c (c :: r) = some r := by
  simp [expectChar]

theorem dropWhile_cons_head_false {p : Char → Bool} :
    ∀ (l : LC) (c : Char) (t : LC), l.dropWhile p = c :: t → p c = false := by
  intro l
  induction l with
  | nil => intro c t h; simp [List.dropWhile] at h
  | cons x xs ih =>
    intro c t h
    simp only [List.dropWhile] at h
    by_cases hx : p x = true
    · rw [hx] at h; exact ih c t h
    · rw [Bool.not_eq_true] at hx
      rw [hx] at h
      simp only [List.cons.injEq] at h
      obtain ⟨rfl, _⟩ := h
      exact hx

theorem takeWhile_dropWhile_append {p : Char → Bool} :
    ∀ (d r : LC), (∀ c ∈ d, p c = true) → (∀ c t, r = c :: t → p c = false) →
      (d ++ r).takeWhile p = d ∧ (d ++ r).dropWhile p = r := by
  intro d
  induction d with
  | nil =>
    intro r _ hr
    constructor
    · match r with
      | [] => rfl
      | c :: t =>
        simp only [List.nil_append, List.takeWhile]
        rw [hr c t rfl]
    · match r with
      | [] => rfl
      | c :: t =>
        simp only [List.nil_append, List.dropWhile]
        rw [hr c t rfl]
  | cons x xs ih =>
    intro r hd hr
    have hx : p x = true := hd x (List.mem_cons_self ..)
    have hrest : ∀ c ∈ xs, p c = true := fun c hc => hd c (List.mem_cons_of_mem _ hc)
    obtain ⟨h1, h2⟩ := ih r hrest hr
    constructor
    · rw [List.cons_append, List.takeWhile_cons, hx, if_pos rfl, h1]
    · rw [List.cons_append, List.dropWhile_cons, hx, if_pos rfl, h2]

theorem takeSpaces1_sound {l r : LC} (h : takeSpaces1 l = some r) :
    ∃ sp, spaceRun sp ∧ l = sp ++ r ∧ (∀ c t, r = c :: t → isSpaceChar c = false) := by
  match l with
  | [] => simp [takeSpaces1] at h
  | c :: t =>
    simp only [takeSpaces1] at h
    by_cases hc : isSpaceChar c = true
    · rw [if_pos hc] at h
      simp only [Option.some.injEq] at h
      subst h
      refine ⟨c :: t.takeWhile isSpaceChar, ⟨by simp, ?_⟩, ?_, ?_⟩
      · intro x hx
        rcases List.mem_cons.mp hx with rfl | hx
        · exact hc
        · exact List.mem_takeWhile_imp hx
      · simp [List.takeWhile_append_dropWhile]
      · intro x xt hxt
        exact dropWhile_cons_head_false t x xt hxt
    · rw [if_neg hc] at h; simp at h

theorem takeSpaces1_complete {sp r : LC} (hsp : spaceRun sp)
    (hr : ∀ c t, r = c :: t → isSpaceChar c = false) :
    takeSpaces1 (sp ++ r) = some r := by
  obtain ⟨hne, hall⟩ := hsp
  match sp with
  | [] => exact absurd rfl hne
  | c :: t =>
    have hc : isSpaceChar c = true := hall c (List.mem_cons_self ..)
    have ht : ∀ x ∈ t, isSpaceChar x = true := fun x hx => hall x (List.mem_cons_of_mem _ hx)
    simp only [List.cons_append, takeSpaces1, hc, if_pos]
    rw [(takeWhile_dropWhile_append t r ht hr).2]

theorem matchFrac_sound {l : LC} {f : Option LC} {r : LC} (h : matchFrac l = (f, r)) :
    l = optStr f ++ r ∧ fracShape f := by
  match l with
  | [] =>
    simp only [matchFrac, Prod.mk.injEq] at h
    obtain ⟨rfl, rfl⟩ := h
    exact ⟨rfl, trivial⟩
  | [c0] =>
    simp only [matchFrac, Prod.mk.injEq] at h
    obtain ⟨rfl, rfl⟩ := h
    exact ⟨rfl, trivial⟩
  | c0 :: c1 :: rest =>
    simp only [matchFrac] at h
    by_cases hc : c0 = '.' ∧ isDigitCh c1 = true
    · rw [if_pos hc] at h
      simp only [Prod.mk.injEq] at h
      obtain ⟨rfl, rfl⟩ := h
      obtain ⟨rfl, hc1⟩ := hc
      constructor
      · simp only [optStr, Option.getD_some, List.cons_append, List.cons.injEq, true_and]
        rw [List.takeWhile_append_dropWhile]
      · refine ⟨(c1 :: rest).takeWhile isDigitCh, rfl, ?_, ?_⟩
        · simp [List.takeWhile, hc1]
        · intro x hx
          exact List.mem_takeWhile_imp hx
    · rw [if_neg hc] at h
      simp only [Prod.mk.injEq] at h
      obtain ⟨rfl, rfl⟩ := h
      exact ⟨rfl, trivial⟩

theorem matchFrac_complete_none {l : LC} (h : ∀ c t, l = c :: t → c ≠ '.') :
    matchFrac l = (none, l) := by
  match l with
  | [] => rfl
  | [c0] => rfl
  | c0 :: c1 :: rest =>
    have : ¬(c0 = '.' ∧ isDigitCh c1 = true) := by
      rintro ⟨rfl, _⟩
      exact h '.' (c1 :: rest) rfl rfl
    simp only [matchFrac]
    rw [if_neg this]

theorem matchFrac_complete_some {ds r : LC} (hne : ds ≠ []) (hdig : allDigits ds)
    (hr : ∀ c t, r = c :: t → isDigitCh c = false) :
    matchFrac ('.' :: ds ++ r) = (some ('.' :: ds), r) := by
  match ds with
  | [] => exact absurd rfl hne
  | d0 :: ds1 =>
    have hd0 : isDigitCh d0 = true := hdig d0 (List.mem_cons_self ..)
    have hds1 : ∀ c ∈ ds1, isDigitCh c = true := fun c hc => hdig c (List.mem_cons_of_mem _ hc)
    obtain ⟨ht, hd⟩ := takeWhile_dropWhile_append (p := isDigitCh) (d0 :: ds1) r hdig hr
    show (if ('.' : Char) = '.' ∧ isDigitCh d0 = true then
        (some ('.' :: (d0 :: (ds1 ++ r)).takeWhile isDigitCh),
         (d0 :: (ds1 ++ r)).dropWhile isDigitCh)
      else (none, '.' :: d0 :: (ds1 ++ r))) = (some ('.' :: d0 :: ds1), r)
    rw [if_pos ⟨rfl, hd0⟩]
    have hcons : (d0 : Char) :: (ds1 ++ r) = (d0 :: ds1) ++ r := rfl
    rw [hcons, ht, hd]

theorem matchTzEnd_sound {l : LC} {o : Option LC} (h : matchTzEnd l = some o) :
    l = optStr o ∧ tzShapeOpt o := by
  match l with
  | [] =>
    simp only [matchTzEnd, Option.some.injEq] at h
    subst h
    exact ⟨rfl, trivial⟩
  | c :: rest =>
    simp only [matchTzEnd] at h
    by_cases hz : c = 'Z' ∧ rest = []
    · rw [if_pos hz] at h
      simp only [Option.some.injEq] at h
      subst h
      obtain ⟨rfl, rfl⟩ := hz
      exact ⟨rfl, Or.inl rfl⟩
    · rw [if_neg hz] at h
      by_cases hpm : c = '+' ∨ c = '-'
      · rw [if_pos hpm] at h
        simp only [bind, Option.bind_eq_some] at h
        obtain ⟨⟨hd2, r1⟩, htd, h⟩ := h
        obtain ⟨r2, hec, h⟩ := h
        obtain ⟨⟨m, r3⟩, htd2, h⟩ := h
        by_cases hr3 : r3 = []
        · rw [if_pos hr3] at h
          simp only [Option.some.injEq] at h
          subst h
          subst hr3
          obtain ⟨hrest, hlen, hdig⟩ := takeDigits_sound 2 rest hd2 r1 htd
          obtain ⟨hr2, hlenm, hdigm⟩ := takeDigits_sound 2 r2 m [] htd2
          have hr1 : r1 = ':' :: r2 := expectChar_sound hec
          obtain ⟨a, b, rfl⟩ := List.length_eq_two.mp hlen
          obtain ⟨e, f, rfl⟩ := List.length_eq_two.mp hlenm
          constructor
          · subst hrest hr1 hr2; simp [optStr]
          · refine Or.inr ⟨c, a, b, e, f, by simp [optStr], hpm, ?_, ?_, ?_, ?_⟩
            · exact hdig a (by simp)
            · exact hdig b (by simp)
            · exact hdigm e (by simp)
            · exact hdigm f (by simp)
        · rw [if_neg hr3] at h; simp at h
      · rw [if_neg hpm] at h; simp at h

theorem matchTzEnd_complete {t : LC} (h : tzShape t) : matchTzEnd t = some (some t) := by
  rcases h with rfl | ⟨sg, h1, h2, m1, m2, rfl, hsg, d1, d2, d3, d4⟩
  · rfl
  · have hz : ¬(sg = 'Z' ∧ ([h1, h2, ':', m1, m2] : LC) = []) := by
      rintro ⟨_, hh⟩; simp at hh
    have d12 : allDigits [h1, h2] := by
      intro x hx
      simp only [List.mem_cons, List.not_mem_nil, or_false] at hx
      rcases hx with rfl | rfl <;> assumption
    have d34 : allDigits [m1, m2] := by
      intro x hx
      simp only [List.mem_cons, List.not_mem_nil, or_false] at hx
      rcases hx with rfl | rfl <;> assumption
    have e1 : takeDigits 2 [h1, h2, ':', m1, m2] = some ([h1, h2], [':', m1, m2]) :=
      takeDigits_complete [h1, h2] [':', m1, m2] d12
    have e3 : takeDigits 2 [m1, m2] = some ([m1, m2], []) :=
      takeDigits_complete [m1, m2] [] d34
    simp only [matchTzEnd, if_neg hz, if_pos hsg, bind, e1, Option.some_bind,
      expectChar, if_pos rfl, e3, if_true]
    rfl

theorem matchDT_sound {l : LC} {g : DTGroups} (h : matchDT l = some g) :
    ∃ sp, spaceRun sp ∧ groupsWF g ∧ l = rendersWith g sp := by
  unfold matchDT at h
  simp only [bind, Option.bind_eq_some, Option.pure_def, Option.some.injEq] at h
  obtain ⟨⟨y, r1⟩, hy, h⟩ := h
  obtain ⟨r2, he1, h⟩ := h
  obtain ⟨⟨mo, r3⟩, hmo, h⟩ := h
  obtain ⟨r4, he2, h⟩ := h
  obtain ⟨⟨d, r5⟩, hd, h⟩ := h
  obtain ⟨r6, hsp6, h⟩ := h
  obtain ⟨⟨hh, r7⟩, hhh, h⟩ := h
  obtain ⟨r8, he3, h⟩ := h
  obtain ⟨⟨mi, r9⟩, hmi, h⟩ := h
  obtain ⟨r10, he4, h⟩ := h
  obtain ⟨⟨ss, r11⟩, hss, h⟩ := h
  obtain ⟨frac, r12, hfr⟩ : ∃ fr r12, matchFrac r11 = (fr, r12) := ⟨_, _, rfl⟩
  rw [hfr] at h
  obtain ⟨tzs, htz, hg⟩ := h
  subst hg
  obtain ⟨ly, hylen, hydig⟩ := takeDigits_sound 4 l y r1 hy
  have hc1 : r1 = ':' :: r2 := expectChar_sound he1
  obtain ⟨lmo, hmolen, hmodig⟩ := takeDigits_sound 2 r2 mo r3 hmo
  have hc2 : r3 = ':' :: r4 := expectChar_sound he2
  obtain ⟨ld, hdlen, hddig⟩ := takeDigits_sound 2 r4 d r5 hd
  obtain ⟨sp, hsprun, hr5, _⟩ := takeSpaces1_sound hsp6
  obtain ⟨lhh, hhhlen, hhhdig⟩ := takeDigits_sound 2 r6 hh r7 hhh
  have hc3 : r7 = ':' :: r8 := expectChar_sound he3
  obtain ⟨lmi, hmilen, hmidig⟩ := takeDigits_sound 2 r8 mi r9 hmi
  have hc4 : r9 = ':' :: r10 := expectChar_sound he4
  obtain ⟨lss, hsslen, hssdig⟩ := takeDigits_sound 2 r10 ss r11 hss
  obtain ⟨hfr12, hfshape⟩ := matchFrac_sound hfr
  obtain ⟨hr12, htzshape⟩ := matchTzEnd_sound htz
  refine ⟨sp, hsprun, ?_, ?_⟩
  · exact ⟨hylen, hydig, hmolen, hmodig, hdlen, hddig, hhhlen, hhhdig,
      hmilen, hmidig, hsslen, hssdig, hfshape, htzshape⟩
  · subst ly hc1 lmo hc2 ld hr5 lhh hc3 lmi hc4 lss hfr12 hr12
    simp [rendersWith, List.append_assoc]

theorem strictMatchTs_sound {l : LC} {g : DTGroups} (h : strictMatchTs l = some g) :
    groupsWF g ∧ l = rendersWith g [' '] := by
  unfold strictMatchTs at h
  simp only [bind, Option.bind_eq_some, Option.pure_def, Option.some.injEq] at h
  obtain ⟨⟨y, r1⟩, hy, h⟩ := h
  obtain ⟨r2, he1, h⟩ := h
  obtain ⟨⟨mo, r3⟩, hmo, h⟩ := h
  obtain ⟨r4, he2, h⟩ := h
  obtain ⟨⟨d, r5⟩, hd, h⟩ := h
  obtain ⟨r6, hsp6, h⟩ := h
  obtain ⟨⟨hh, r7⟩, hhh, h⟩ := h
  obtain ⟨r8, he3, h⟩ := h
  obtain ⟨⟨mi, r9⟩, hmi, h⟩ := h
  obtain ⟨r10, he4, h⟩ := h
  obtain ⟨⟨ss, r11⟩, hss, h⟩ := h
  obtain ⟨frac, r12, hfr⟩ : ∃ fr r12, matchFrac r11 = (fr, r12) := ⟨_, _, rfl⟩
  rw [hfr] at h
  obtain ⟨tzs, htz, hg⟩ := h
  subst hg
  obtain ⟨ly, hylen, hydig⟩ := takeDigits_sound 4 l y r1 hy
  have hc1 : r1 = ':' :: r2 := expectChar_sound he1
  obtain ⟨lmo, hmolen, hmodig⟩ := takeDigits_sound 2 r2 mo r3 hmo
  have hc2 : r3 = ':' :: r4 := expectChar_sound he2
  obtain ⟨ld, hdlen, hddig⟩ := takeDigits_sound 2 r4 d r5 hd
  have hr5 : r5 = ' ' :: r6 := expectChar_sound hsp6
  obtain ⟨lhh, hhhlen, hhhdig⟩ := takeDigits_sound 2 r6 hh r7 hhh
  have hc3 : r7 = ':' :: r8 := expectChar_sound he3
  obtain ⟨lmi, hmilen, hmidig⟩ := takeDigits_sound 2 r8 mi r9 hmi
  have hc4 : r9 = ':' :: r10 := expectChar_sound he4
  obtain ⟨lss, hsslen, hssdig⟩ := takeDigits_sound 2 r10 ss r11 hss
  obtain ⟨hfr12, hfshape⟩ := matchFrac_sound hfr
  obtain ⟨hr12, htzshape⟩ := matchTzEnd_sound htz
  refine ⟨?_, ?_⟩
  · exact ⟨hylen, hydig, hmolen, hmodig, hdlen, hddig, hhhlen, hhhdig,
      hmilen, hmidig, hsslen, hssdig, hfshape, htzshape⟩
  · subst ly hc1 lmo hc2 ld hr5 lhh hc3 lmi hc4 lss hfr12 hr12
    simp [rendersWith, List.append_assoc]

theorem matchDT_complete {g : DTGroups} {sp : LC} (hwf : groupsWF g) (hsp : spaceRun sp) :
    matchDT (rendersWith g sp) = some g := by
  obtain ⟨y, mo, d, hh, mi, ss, frac, tzs⟩ := g
  obtain ⟨hylen, hydig, hmolen, hmodig, hdlen, hddig, hhhlen, hhhdig,
    hmilen, hmidig, hsslen, hssdig, hfshape, htzshape⟩ := hwf
  obtain ⟨a, hh1, rfl⟩ := List.exists_cons_of_ne_nil
    (show hh ≠ [] by intro e; rw [e] at hhhlen; simp at hhhlen)
  have hadig : isDigitCh a = true := hhhdig a (List.mem_cons_self ..)
  -- the tail after the seconds group
  have htzhead : ∀ c t, optStr tzs = c :: t → isDigitCh c = false ∧ c ≠ '.' := by
    intro c t hct
    match tzs, htzshape with
    | none, _ => simp [optStr] at hct
    | some u, hs =>
      rcases hs with rfl | ⟨sg, x1, x2, x3, x4, rfl, hsg, _, _, _, _⟩
      · simp only [optStr, Option.getD_some, List.cons.injEq] at hct
        obtain ⟨rfl, _⟩ := hct
        exact ⟨by decide, by decide⟩
      · simp only [optStr, Option.getD_some, List.cons.injEq] at hct
        obtain ⟨rfl, _⟩ := hct
        rcases hsg with rfl | rfl
        · exact ⟨by decide, by decide⟩
        · exact ⟨by decide, by decide⟩
  have efr : matchFrac (optStr frac ++ optStr tzs) = (frac, optStr tzs) := by
    match frac, hfshape with
    | none, _ =>
      show matchFrac (optStr tzs) = (none, optStr tzs)
      exact matchFrac_complete_none (fun c t hct hdot =>
        absurd hdot (by simpa using (htzhead c t hct).2.symm ∘ Eq.symm) )
    | some f, hs =>
      obtain ⟨ds, rfl, hdne, hddigs⟩ := hs
      show matchFrac ('.' :: ds ++ optStr tzs) = (some ('.' :: ds), optStr tzs)
      exact matchFrac_complete_some hdne hddigs (fun c t hct => (htzhead c t hct).1)
  have etz : matchTzEnd (optStr tzs) = some tzs := by
    match tzs, htzshape with
    | none, _ => rfl
    | some u, hs => exact matchTzEnd_complete hs
  have hrw : rendersWith ⟨y, mo, d, a :: hh1, mi, ss, frac, tzs⟩ sp =
      y ++ (':' :: (mo ++ (':' :: (d ++ (sp ++ ((a :: hh1) ++ (':' :: (mi ++ (':' ::
        (ss ++ (optStr frac ++ optStr tzs))))))))))) := by
    simp [rendersWith, List.append_assoc]
  have e1 : takeDigits 4 (y ++ (':' :: (mo ++ (':' :: (d ++ (sp ++ ((a :: hh1) ++ (':' ::
      (mi ++ (':' :: (ss ++ (optStr frac ++ optStr tzs)))))))))))) =
      some (y, ':' :: (mo ++ (':' :: (d ++ (sp ++ ((a :: hh1) ++ (':' :: (mi ++ (':' ::
        (ss ++ (optStr frac ++ optStr tzs))))))))))) := by
    rw [← hylen]; exact takeDigits_complete y _ hydig
  have e3 : takeDigits 2 (mo ++ (':' :: (d ++ (sp ++ ((a :: hh1) ++ (':' :: (mi ++ (':' ::
      (ss ++ (optStr frac ++ optStr tzs)))))))))) =
      some (mo, ':' :: (d ++ (sp ++ ((a :: hh1) ++ (':' :: (mi ++ (':' ::
        (ss ++ (optStr frac ++ optStr tzs))))))))) := by
    rw [← hmolen]; exact takeDigits_complete mo _ hmodig
  have e5 : takeDigits 2 (d ++ (sp ++ ((a :: hh1) ++ (':' :: (mi ++ (':' ::
      (ss ++ (optStr frac ++ optStr tzs)))))))) =
      some (d, sp ++ ((a :: hh1) ++ (':' :: (mi ++ (':' ::
        (ss ++ (optStr frac ++ optStr tzs))))))) := by
    rw [← hdlen]; exact takeDigits_complete d _ hddig
  have e6 : takeSpaces1 (sp ++ ((a :: hh1) ++ (':' :: (mi ++ (':' ::
      (ss ++ (optStr frac ++ optStr tzs))))))) =
      some ((a :: hh1) ++ (':' :: (mi ++ (':' :: (ss ++ (optStr frac ++ optStr tzs)))))) := by
    refine takeSpaces1_complete hsp ?_
    intro c t hct
    have : a = c := by
      have : a :: (hh1 ++ (':' :: (mi ++ (':' :: (ss ++ (optStr frac ++ optStr tzs)))))) =
          c :: t := hct
      exact (List.cons.injEq .. ▸ this).1
    subst this
    exact digit_not_space hadig
  have e7 : takeDigits 2 ((a :: hh1) ++ (':' :: (mi ++ (':' ::
      (ss ++ (optStr frac ++ optStr tzs)))))) =
      some (a :: hh1, ':' :: (mi ++ (':' :: (ss ++ (optStr frac ++ optStr tzs))))) := by
    rw [← hhhlen]; exact takeDigits_complete (a :: hh1) _ hhhdig
  have e9 : takeDigits 2 (mi ++ (':' :: (ss ++ (optStr frac ++ optStr tzs)))) =
      some (mi, ':' :: (ss ++ (optStr frac ++ optStr tzs))) := by
    rw [← hmilen]; exact takeDigits_complete mi _ hmidig
  have e11 : takeDigits 2 (ss ++ (optStr frac ++ optStr tzs)) =
      some (ss, optStr frac ++ optStr tzs) := by
    rw [← hsslen]; exact takeDigits_complete ss _ hssdig
  rw [hrw]
  unfold matchDT
  simp only [bind, e1, Option.some_bind, expectChar_complete, e3, e5, e6, e7, e9, e11,
    efr, etz, Option.pure_def]

theorem pyStrip_decomp (l : LC) :
    ∃ w1 w2, allSpace w1 ∧ allSpace w2 ∧ l = w1 ++ pyStrip l ++ w2 := by
  refine ⟨l.takeWhile isSpaceChar,
    ((l.dropWhile isSpaceChar).reverse.takeWhile isSpaceChar).reverse, ?_, ?_, ?_⟩
  · intro c hc; exact List.mem_takeWhile_imp hc
  · intro c hc
    rw [List.mem_reverse] at hc
    exact List.mem_takeWhile_imp hc
  · rw [List.append_assoc]
    conv_lhs => rw [← List.takeWhile_append_dropWhile (p := isSpaceChar) (l := l)]
    congr 1
    calc l.dropWhile isSpaceChar
        = ((l.dropWhile isSpaceChar).reverse).reverse := by simp
      _ = ((l.dropWhile isSpaceChar).reverse.takeWhile isSpaceChar ++
            (l.dropWhile isSpaceChar).reverse.dropWhile isSpaceChar).reverse := by
            rw [List.takeWhile_append_dropWhile]
      _ = pyStrip l ++ ((l.dropWhile isSpaceChar).reverse.takeWhile isSpaceChar).reverse := by
            rw [List.reverse_append]; rfl

theorem pyStrip_wrapped {w1 w2 core : LC} (h1 : allSpace w1) (h2 : allSpace w2)
    (hne : core ≠ [])
    (hh : ∀ c t, core = c :: t → isSpaceChar c = false)
    (hl : ∀ c t, core.reverse = c :: t → isSpaceChar c = false) :
    pyStrip (w1 ++ core ++ w2) = core := by
  have hd1 : (w1 ++ core ++ w2).dropWhile isSpaceChar = core ++ w2 := by
    obtain ⟨c0, ct, rfl⟩ := List.exists_cons_of_ne_nil hne
    rw [List.append_assoc]
    refine (takeWhile_dropWhile_append w1 ((c0 :: ct) ++ w2) h1 ?_).2
    intro c t hct
    have hc : c0 = c := by
      have h3 : c0 :: (ct ++ w2) = c :: t := hct
      exact (List.cons.injEq .. ▸ h3).1
    subst hc
    exact hh c0 ct rfl
  unfold pyStrip
  rw [hd1, List.reverse_append]
  have hrevne : core.reverse ≠ [] := by simpa using hne
  have hd2 : (w2.reverse ++ core.reverse).dropWhile isSpaceChar = core.reverse := by
    obtain ⟨e0, et, hrev⟩ := List.exists_cons_of_ne_nil hrevne
    rw [hrev]
    refine (takeWhile_dropWhile_append w2.reverse (e0 :: et)
      (fun c hc => h2 c (List.mem_reverse.mp hc)) ?_).2
    intro c t hct
    have hc : e0 = c := by
      exact (List.cons.injEq .. ▸ hct).1
    subst hc
    exact hl e0 et hrev
  rw [hd2, List.reverse_reverse]

theorem list_length_four {l : LC} (h : l.length = 4) :
    ∃ a b c d, l = [a, b, c, d] := by
  match l with
  | [a, b, c, d] => exact ⟨a, b, c, d, rfl⟩
  | [] | [_] | [_, _] | [_, _, _] => simp at h
  | _ :: _ :: _ :: _ :: _ :: _ => simp at h

theorem pad2_digitsVal {a b : Char} (ha : isDigitCh a = true) (hb : isDigitCh b = true) :
    pad2 (digitsVal [a, b]) = [a, b] := by
  have ha2 := ha; have hb2 := hb
  simp only [isDigitCh, Bool.and_eq_true, decide_eq_true_eq] at ha2 hb2
  show [digitChar (digitsVal [a, b] / 10 % 10), digitChar (digitsVal [a, b] % 10)] = [a, b]
  have hv : digitsVal [a, b] = 10 * (a.toNat - 48) + (b.toNat - 48) := by
    show (10 * (10 * 0 + (a.toNat - 48)) + (b.toNat - 48)) = _
    omega
  have h1 : digitsVal [a, b] / 10 % 10 = a.toNat - 48 := by rw [hv]; omega
  have h2 : digitsVal [a, b] % 10 = b.toNat - 48 := by rw [hv]; omega
  rw [h1, h2, digitChar_val ha, digitChar_val hb]

theorem pad4_digitsVal {a b c d : Char} (ha : isDigitCh a = true) (hb : isDigitCh b = true)
    (hc : isDigitCh c = true) (hd : isDigitCh d = true) :
    pad4 (digitsVal [a, b, c, d]) = [a, b, c, d] := by
  have ha2 := ha; have hb2 := hb; have hc2 := hc; have hd2 := hd
  simp only [isDigitCh, Bool.and_eq_true, decide_eq_true_eq] at ha2 hb2 hc2 hd2
  show [digitChar (digitsVal [a, b, c, d] / 1000 % 10), digitChar (digitsVal [a, b, c, d] / 100 % 10),
        digitChar (digitsVal [a, b, c, d] / 10 % 10), digitChar (digitsVal [a, b, c, d] % 10)] =
      [a, b, c, d]
  have hv : digitsVal [a, b, c, d] =
      1000 * (a.toNat - 48) + 100 * (b.toNat - 48) + 10 * (c.toNat - 48) + (d.toNat - 48) := by
    show (10 * (10 * (10 * (10 * 0 + (a.toNat - 48)) + (b.toNat - 48)) + (c.toNat - 48)) +
      (d.toNat - 48)) = _
    omega
  have h1 : digitsVal [a, b, c, d] / 1000 % 10 = a.toNat - 48 := by rw [hv]; omega
  have h2 : digitsVal [a, b, c, d] / 100 % 10 = b.toNat - 48 := by rw [hv]; omega
  have h3 : digitsVal [a, b, c, d] / 10 % 10 = c.toNat - 48 := by rw [hv]; omega
  have h4 : digitsVal [a, b, c, d] % 10 = d.toNat - 48 := by rw [hv]; omega
  rw [h1, h2, h3, h4, digitChar_val ha, digitChar_val hb, digitChar_val hc, digitChar_val hd]

theorem rendersWith_head {g : DTGroups} (hwf : groupsWF g) (sp : LC) :
    ∀ c t, rendersWith g sp = c :: t → isSpaceChar c = false := by
  obtain ⟨y, mo, d, hh, mi, ss, frac, tzs⟩ := g
  obtain ⟨hylen, hydig, -⟩ := hwf
  obtain ⟨a, b, c0, d0, rfl⟩ := list_length_four hylen
  intro c t h
  have hac : a = c := by
    have h3 : a :: (b :: c0 :: d0 :: (':' :: (mo ++ ':' :: (d ++ sp ++
        (hh ++ ':' :: (mi ++ ':' :: (ss ++ optStr frac ++ optStr tzs))))))) = c :: t := by
      simpa [rendersWith, List.append_assoc] using h
    exact (List.cons.injEq .. ▸ h3).1
  subst hac
  exact digit_not_space (hydig a (by simp))

theorem rendersWith_ne_nil {g : DTGroups} (hwf : groupsWF g) (sp : LC) :
    rendersWith g sp ≠ [] := by
  obtain ⟨y, mo, d, hh, mi, ss, frac, tzs⟩ := g
  obtain ⟨hylen, -⟩ := hwf
  obtain ⟨a, b, c0, d0, rfl⟩ := list_length_four hylen
  simp [rendersWith]

theorem rendersWith_revhead {g : DTGroups} (hwf : groupsWF g) (sp : LC) :
    ∀ c t, (rendersWith g sp).reverse = c :: t → isSpaceChar c = false := by
  obtain ⟨y, mo, d, hh, mi, ss, frac, tzs⟩ := g
  obtain ⟨hylen, hydig, hmolen, hmodig, hdlen, hddig, hhhlen, hhhdig,
    hmilen, hmidig, hsslen, hssdig, hfshape, htzshape⟩ := hwf
  intro c t h
  match tzs, htzshape with
  | some u, hs =>
    rcases hs with rfl | ⟨sg, x1, x2, x3, x4, rfl, hsg, hd1, hd2, hd3, hd4⟩
    · have h3 : 'Z' = c := by
        simp only [rendersWith, optStr, Option.getD_some, List.reverse_append,
          List.reverse_cons, List.reverse_nil, List.nil_append, List.append_assoc,
          List.cons_append] at h
        exact (List.cons.injEq .. ▸ h).1
      subst h3
      decide
    · have h3 : x4 = c := by
        simp only [rendersWith, optStr, Option.getD_some, List.reverse_append,
          List.reverse_cons, List.reverse_nil, List.nil_append, List.append_assoc,
          List.cons_append] at h
        exact (List.cons.injEq .. ▸ h).1
      subst h3
      exact digit_not_space hd4
  | none, htzn =>
    match frac, hfshape with
    | some f, hs =>
      obtain ⟨ds, rfl, hdne, hddigs⟩ := hs
      obtain ⟨e0, et, hrev⟩ := List.exists_cons_of_ne_nil
        (show ds.reverse ≠ [] by simpa using hdne)
      have he0 : e0 ∈ ds := by
        rw [← List.mem_reverse, hrev]; simp
      have h3 : e0 = c := by
        simp only [rendersWith, optStr, Option.getD_some, Option.getD_none,
          List.append_nil, List.reverse_append, List.reverse_cons, List.reverse_nil,
          List.nil_append, List.append_assoc, List.cons_append, hrev] at h
        exact (List.cons.injEq .. ▸ h).1
      subst h3
      exact digit_not_space (hddigs e0 he0)
    | none, hfn =>
      obtain ⟨s1, s2, rfl⟩ := List.length_eq_two.mp hsslen
      have h3 : s2 = c := by
        simp only [rendersWith, optStr, Option.getD_none, List.append_nil,
          List.reverse_append, List.reverse_cons, List.reverse_nil, List.nil_append,
          List.append_assoc, List.cons_append] at h
        exact (List.cons.injEq .. ▸ h).1
      subst h3
      exact digit_not_space (hssdig s2 (by simp))

theorem parse_of_matchDT {s : LC} {g : DTGroups} (hm : matchDT (pyStrip s) = some g)
    (hr : rangesChk g = true) :
    parse_exif_dt s = some ⟨⟨digitsVal g.gy, digitsVal g.gmo, digitsVal g.gd,
      digitsVal g.ghh, digitsVal g.gmi, digitsVal g.gss,
      g.gtzs.bind tzOffsetOfSuffix⟩, g.gfrac, g.gtzs⟩ := by
  simp only [rangesChk, Bool.and_eq_true] at hr
  obtain ⟨hv, htz⟩ := hr
  unfold parse_exif_dt
  simp only [bind, hm, Option.some_bind]
  rw [mkDatetime, if_pos hv]
  simp only [Option.some_bind]
  cases hgt : g.gtzs with
  | none => simp [tzField]
  | some t =>
    rw [hgt] at htz
    simp only [tzRangeChk] at htz
    obtain ⟨off, hoff⟩ := Option.isSome_iff_exists.mp htz
    simp [tzField, hoff]

theorem parse_isSome_iff {s : LC} :
    (parse_exif_dt s).isSome = true ↔
      ∃ g, matchDT (pyStrip s) = some g ∧ rangesChk g = true := by
  constructor
  · intro h
    match hm : matchDT (pyStrip s) with
    | none =>
      simp only [parse_exif_dt, bind, hm, Option.none_bind, Option.isSome_none] at h
      exact absurd h (by simp)
    | some g =>
      refine ⟨g, rfl, ?_⟩
      simp only [parse_exif_dt, bind, hm, Option.some_bind] at h
      by_cases hv : validRanges (digitsVal g.gy) (digitsVal g.gmo) (digitsVal g.gd)
          (digitsVal g.ghh) (digitsVal g.gmi) (digitsVal g.gss) = true
      · rw [mkDatetime, if_pos hv] at h
        simp only [Option.some_bind] at h
        cases hgt : g.gtzs with
        | none => simp [rangesChk, tzRangeChk, hv, hgt]
        | some t =>
          rw [hgt] at h
          cases hto : tzOffsetOfSuffix t with
          | none => simp [tzField, hto] at h
          | some off => simp [rangesChk, tzRangeChk, hv, hgt, hto]
      · rw [mkDatetime, if_neg hv] at h
        simp at h
  · rintro ⟨g, hm, hr⟩
    rw [parse_of_matchDT hm hr]
    rfl

theorem fmt_of_groups {g : DTGroups} (hwf : groupsWF g) (tzv : Option Int) :
    fmt_exif_dt ⟨digitsVal g.gy, digitsVal g.gmo, digitsVal g.gd, digitsVal g.ghh,
      digitsVal g.gmi, digitsVal g.gss, tzv⟩ g.gfrac g.gtzs = rendersWith g [' '] := by
  obtain ⟨y, mo, d, hh, mi, ss, frac, tzs⟩ := g
  obtain ⟨hylen, hydig, hmolen, hmodig, hdlen, hddig, hhhlen, hhhdig,
    hmilen, hmidig, hsslen, hssdig, -, -⟩ := hwf
  obtain ⟨a1, a2, a3, a4, rfl⟩ := list_length_four hylen
  obtain ⟨b1, b2, rfl⟩ := List.length_eq_two.mp hmolen
  obtain ⟨c1, c2, rfl⟩ := List.length_eq_two.mp hdlen
  obtain ⟨e1, e2, rfl⟩ := List.length_eq_two.mp hhhlen
  obtain ⟨f1, f2, rfl⟩ := List.length_eq_two.mp hmilen
  obtain ⟨g1, g2, rfl⟩ := List.length_eq_two.mp hsslen
  have py : pad4 (digitsVal [a1, a2, a3, a4]) = [a1, a2, a3, a4] :=
    pad4_digitsVal (hydig a1 (by simp)) (hydig a2 (by simp)) (hydig a3 (by simp))
      (hydig a4 (by simp))
  have pmo : pad2 (digitsVal [b1, b2]) = [b1, b2] :=
    pad2_digitsVal (hmodig b1 (by simp)) (hmodig b2 (by simp))
  have pd : pad2 (digitsVal [c1, c2]) = [c1, c2] :=
    pad2_digitsVal (hddig c1 (by simp)) (hddig c2 (by simp))
  have phh : pad2 (digitsVal [e1, e2]) = [e1, e2] :=
    pad2_digitsVal (hhhdig e1 (by simp)) (hhhdig e2 (by simp))
  have pmi : pad2 (digitsVal [f1, f2]) = [f1, f2] :=
    pad2_digitsVal (hmidig f1 (by simp)) (hmidig f2 (by simp))
  have pss : pad2 (digitsVal [g1, g2]) = [g1, g2] :=
    pad2_digitsVal (hssdig g1 (by simp)) (hssdig g2 (by simp))
  simp only [fmt_exif_dt, rendersWith, py, pmo, pd, phh, pmi, pss, optStr,
    List.append_assoc, List.cons_append, List.nil_append]

/-! ## Claim C4 -/

/-- C4: for every well-formed timestamp string matching the required pattern
`YYYY:MM:DD HH:MM:SS[.fraction][Z|±HH:MM]` (with valid numeric ranges),
formatting the parse of the string with no adjustment returns the string
exactly, fractional seconds and offset suffix preserved character for
character. -/
theorem c4_parse_format_round_trip (s : LC) (h : specPatternOK s = true) :
    ∃ r, parse_exif_dt s = some r ∧ fmt_exif_dt r.dt r.frac r.tzs = s ∧
      apply_time_adjustments s 0 none = .ok s := by
  unfold specPatternOK at h
  match hsm : strictMatchTs s with
  | none => rw [hsm] at h; exact absurd h (by simp)
  | some g =>
    rw [hsm] at h
    obtain ⟨hwf, hs⟩ := strictMatchTs_sound hsm
    have hnil1 : allSpace [] := by intro c hc; simp at hc
    have hstrip : pyStrip s = s := by
      conv_lhs => rw [hs]
      have heq : rendersWith g [' '] = ([] ++ rendersWith g [' ']) ++ [] := by simp
      rw [heq, pyStrip_wrapped hnil1 hnil1 (rendersWith_ne_nil hwf _)
        (rendersWith_head hwf _) (rendersWith_revhead hwf _)]
      exact hs.symm
    have hm : matchDT (pyStrip s) = some g := by
      rw [hstrip]
      conv_lhs => rw [hs]
      exact matchDT_complete hwf ⟨by simp, by intro c hc; simp at hc; subst hc; decide⟩
    have hpar := parse_of_matchDT hm h
    have hfmt : fmt_exif_dt ⟨digitsVal g.gy, digitsVal g.gmo, digitsVal g.gd,
        digitsVal g.ghh, digitsVal g.gmi, digitsVal g.gss,
        g.gtzs.bind tzOffsetOfSuffix⟩ g.gfrac g.gtzs = s := by
      rw [hs]; exact fmt_of_groups hwf _
    refine ⟨_, hpar, hfmt, ?_⟩
    unfold apply_time_adjustments
    rw [hpar]
    simp [hfmt]

/-- Witness for C4 at the concrete input `2024:01:15 10:00:00.123+02:00`. -/
theorem c4_witness :
    ∃ r, parse_exif_dt ("2024:01:15 10:00:00.123+02:00".toList) = some r ∧
      fmt_exif_dt r.dt r.frac r.tzs = "2024:01:15 10:00:00.123+02:00".toList ∧
      apply_time_adjustments ("2024:01:15 10:00:00.123+02:00".toList) 0 none =
        .ok ("2024:01:15 10:00:00.123+02:00".toList) :=
  c4_parse_format_round_trip _ (by decide)

/-! ## Claim C5 -/

/-- C5 counterexample: a tab — a wrong separator, deviating from the required
pattern `YYYY:MM:DD HH:MM:SS[...]` — does not prevent the parser from
succeeding, refuting that it succeeds exactly on the pattern. -/
theorem c5_counterexample :
    (parse_exif_dt ("2024:01:15\t10:00:00".toList)).isSome = true ∧
      specPatternOK ("2024:01:15\t10:00:00".toList) = false := by
  exact ⟨by decide, by decide⟩

/-- C5 (amended): the parser succeeds exactly when the input, after trimming
surrounding whitespace, matches the pattern with one-or-more whitespace
characters between the date and the time and with valid numeric ranges
(including an offset strictly within one day). -/
theorem c5_parser_accepts_iff_relaxed (s : LC) :
    (parse_exif_dt s).isSome = true ↔ MatchesRelaxedPattern s := by
  rw [parse_isSome_iff]
  constructor
  · rintro ⟨g, hm, hr⟩
    obtain ⟨sp, hsp, hwf, hps⟩ := matchDT_sound hm
    obtain ⟨w1, w2, hw1, hw2, hdecomp⟩ := pyStrip_decomp s
    exact ⟨g, sp, w1, w2, hwf, hr, hsp, hw1, hw2, by rw [hdecomp, hps]⟩
  · rintro ⟨g, sp, w1, w2, hwf, hr, hsp, hw1, hw2, rfl⟩
    refine ⟨g, ?_, hr⟩
    have hstrip : pyStrip (w1 ++ rendersWith g sp ++ w2) = rendersWith g sp :=
      pyStrip_wrapped hw1 hw2 (rendersWith_ne_nil hwf sp) (rendersWith_head hwf sp)
        (rendersWith_revhead hwf sp)
    rw [hstrip]
    exact matchDT_complete hwf hsp

/-! ## Claims C2 and C6: offset override -/

theorem offsetFormRe_shape {ov : LC} (h : offsetFormRe ov = true) :
    ∃ s a b d e, ov = [s, a, b, ':', d, e] ∧ (s = '+' ∨ s = '-') ∧
      isDigitCh a = true ∧ isDigitCh b = true ∧ isDigitCh d = true ∧ isDigitCh e = true := by
  match ov with
  | [s, a, b, c, d, e] =>
    simp only [offsetFormRe, Bool.and_eq_true, Bool.or_eq_true, decide_eq_true_eq] at h
    obtain ⟨⟨⟨⟨⟨hs, ha⟩, hb⟩, hc⟩, hd⟩, he⟩ := h
    subst hc
    exact ⟨s, a, b, d, e, rfl, hs, ha, hb, hd, he⟩
  | [] | [_] | [_, _] | [_, _, _] | [_, _, _, _] | [_, _, _, _, _] =>
    simp [offsetFormRe] at h
  | _ :: _ :: _ :: _ :: _ :: _ :: _ :: _ =>
    simp [offsetFormRe] at h

theorem pyUpper_fix_char {c : Char}
    (h : isDigitCh c = true ∨ c = '+' ∨ c = '-' ∨ c = ':') :
    (if 97 ≤ c.toNat ∧ c.toNat ≤ 122 then Char.ofNat (c.toNat - 32) else c) = c := by
  rcases h with h | rfl | rfl | rfl
  · simp only [isDigitCh, Bool.and_eq_true, decide_eq_true_eq] at h
    rw [if_neg]
    omega
  · decide
  · decide
  · decide

/-- A well-formed offset override is unchanged by stripping and uppercasing. -/
theorem wf_offset_fix {ov : LC} (h : ov = ['Z'] ∨ offsetFormRe ov = true) :
    pyUpper (pyStrip ov) = ov := by
  rcases h with rfl | h
  · decide
  · obtain ⟨s, a, b, d, e, rfl, hs, ha, hb, hd, he⟩ := offsetFormRe_shape h
    have hnil : allSpace [] := by intro c hc; simp at hc
    have hstrip : pyStrip [s, a, b, ':', d, e] = [s, a, b, ':', d, e] := by
      have heq : ([s, a, b, ':', d, e] : LC) = ([] ++ [s, a, b, ':', d, e]) ++ [] := by simp
      conv_lhs => rw [heq]
      rw [pyStrip_wrapped hnil hnil (by simp) ?hh ?hl]
      case hh =>
        intro c t hct
        have : s = c := (List.cons.injEq .. ▸ hct).1
        subst this
        rcases hs with rfl | rfl <;> decide
      case hl =>
        intro c t hct
        have h2 : ([s, a, b, ':', d, e] : LC).reverse = [e, d, ':', b, a, s] := by simp
        rw [h2] at hct
        have : e = c := (List.cons.injEq .. ▸ hct).1
        subst this
        exact digit_not_space he
    rw [hstrip]
    have hsu : (if 97 ≤ s.toNat ∧ s.toNat ≤ 122 then Char.ofNat (s.toNat - 32) else s) = s :=
      pyUpper_fix_char (Or.inr (by rcases hs with rfl | rfl <;> simp))
    simp only [pyUpper, List.map_cons, List.map_nil, hsu, pyUpper_fix_char (Or.inl ha),
      pyUpper_fix_char (Or.inl hb), pyUpper_fix_char (Or.inl hd),
      pyUpper_fix_char (Or.inl he), pyUpper_fix_char (Or.inr (Or.inr (Or.inr rfl)))]

/-- Formatting splits into the date-time core and the appended suffix. -/
theorem fmt_split_tz (dt : PyDatetime) (frac : Option LC) (tzs : Option LC) :
    fmt_exif_dt dt frac tzs = fmt_exif_dt dt frac none ++ optStr tzs := by
  cases tzs <;> simp [fmt_exif_dt, optStr, List.append_assoc]

/-- C2: with a zero hour shift and a valid offset override, the adjustment
replaces only the offset suffix: the output is the input's date-time core
(the input minus its offset suffix) with the override appended, the
wall-clock components unchanged. -/
theorem c2_offset_override_relabels (s : LC) (r : ParsedDT) (ov : LC)
    (hp : parse_exif_dt s = some r) (hs : specPatternOK s = true)
    (hov : ov = ['Z'] ∨ offsetFormRe ov = true) :
    ∃ core, s = core ++ optStr r.tzs ∧
      apply_time_adjustments s 0 (some ov) = .ok (core ++ ov) := by
  obtain ⟨r2, hp2, hfmt, -⟩ := c4_parse_format_round_trip s hs
  have hrr : r2 = r := by
    rw [hp] at hp2
    exact (Option.some.injEq .. ▸ hp2).symm
  subst hrr
  have hne : ov ≠ [] := by
    rcases hov with rfl | h
    · simp
    · obtain ⟨s1, a, b, d, e, rfl, -⟩ := offsetFormRe_shape h
      simp
  have hfix : pyUpper (pyStrip ov) = ov := wf_offset_fix hov
  refine ⟨fmt_exif_dt r2.dt r2.frac none, ?_, ?_⟩
  · rw [← hfmt, fmt_split_tz]
  · unfold apply_time_adjustments
    rw [hp]
    have hvalid : (pyUpper (pyStrip ov) = ['Z'] ∨ offsetFormRe (pyUpper (pyStrip ov)) = true) := by
      rw [hfix]; exact hov
    simp [hne, hfix, hvalid, fmt_split_tz r2.dt r2.frac (some ov), optStr]
    exact fun h => hov.resolve_left h

/-- Witness for C2 at the specification's example: overriding the offset of
`2024:01:15 10:00:00+02:00` with `Z` yields `2024:01:15 10:00:00Z`. -/
theorem c2_witness :
    apply_time_adjustments ("2024:01:15 10:00:00+02:00".toList) 0 (some ['Z']) =
      .ok ("2024:01:15 10:00:00Z".toList) ∧
    ∃ core, ("2024:01:15 10:00:00+02:00".toList : LC) = core ++
        optStr (⟨⟨2024, 1, 15, 10, 0, 0, some 120⟩, none, some ("+02:00".toList)⟩ : ParsedDT).tzs ∧
      apply_time_adjustments ("2024:01:15 10:00:00+02:00".toList) 0 (some ['Z']) =
        .ok (core ++ ['Z']) :=
  ⟨rfl,
   c2_offset_override_relabels _ _ ['Z'] (by decide) (by decide) (Or.inl rfl)⟩

/-- C6 counterexample: the override `z` is not exactly `Z` and is not of the
form `±HH:MM`, yet the adjustment does not fail — it uppercases the override
and succeeds, refuting the claim as stated. -/
theorem c6_counterexample :
    apply_time_adjustments ("2024:01:15 10:00:00".toList) 0 (some ['z']) =
      .ok ("2024:01:15 10:00:00Z".toList) ∧
    (['z'] : LC) ≠ ['Z'] ∧ offsetFormRe ['z'] = false :=
  ⟨rfl, by decide, by decide⟩

/-- C6 (amended): for a parseable timestamp and a non-empty override, the
adjustment fails with the invalid-offset error exactly when the override's
whitespace-trimmed upper-cased form is neither `Z` nor of the form `±HH:MM`;
in particular the overrides `Z` and well-formed `±HH:MM` never produce that
error. -/
theorem c6_offset_validation (value : LC) (r : ParsedDT) (ov : LC)
    (hp : parse_exif_dt value = some r) (hne : ov ≠ []) :
    apply_time_adjustments value 0 (some ov) = .error .invalidOffset ↔
      ¬(pyUpper (pyStrip ov) = ['Z'] ∨ offsetFormRe (pyUpper (pyStrip ov)) = true) := by
  unfold apply_time_adjustments
  rw [hp]
  by_cases hv : pyUpper (pyStrip ov) = ['Z'] ∨ offsetFormRe (pyUpper (pyStrip ov)) = true
  · simp [hne, hv]
  · simp [hne, hv]

/-- Witness for C6 at the concrete invalid override `+7:00` (single-digit
hours), which fails with the invalid-offset error. -/
theorem c6_witness :
    apply_time_adjustments ("2024:01:15 10:00:00".toList) 0 (some ("+7:00".toList)) =
      .error .invalidOffset :=
  (c6_offset_validation _ ⟨⟨2024, 1, 15, 10, 0, 0, none⟩, none, none⟩ _
    (by decide) (by decide)).mpr (by decide)

/-! ## Claim C3: selector precedence -/

theorem find?_first_get {α : Type} (p : α → Bool) :
    ∀ (l : List α) (i : Nat) (hi : i < l.length), p (l.get ⟨i, hi⟩) = true →
      (∀ j (hj : j < l.length), j < i → p (l.get ⟨j, hj⟩) = false) →
      l.find? p = some (l.get ⟨i, hi⟩) := by
  intro l
  induction l with
  | nil => intro i hi; simp at hi
  | cons x xs ih =>
    intro i hi hp hprev
    match i with
    | 0 => exact List.find?_cons_of_pos _ hp
    | i + 1 =>
      have hx : p x = false := hprev 0 (by simp) (by omega)
      rw [List.find?_cons_of_neg _ (by simp [hx])]
      exact ih i (by simpa using hi) hp
        (fun j hj hlt => hprev (j + 1) (by simpa using hj) (by omega))

/-- C3: the selector returns the first candidate (priority order, fallback
included) whose value carries an explicit timezone suffix; with no
offset-bearing candidate it returns the first candidate; and it returns
nothing exactly when there is no candidate and the last-resort scan over
fields ending in `CreateDate` or `DateTimeOriginal` finds no non-empty
value. -/
theorem c3_selector_precedence (tags : List (LC × LC)) (p : MPath) :
    (∀ i (hi : i < (candidatesOf tags p).length),
        hasTzSuffix ((candidatesOf tags p).get ⟨i, hi⟩).2 = true →
        (∀ j (hj : j < (candidatesOf tags p).length), j < i →
          hasTzSuffix ((candidatesOf tags p).get ⟨j, hj⟩).2 = false) →
        pick_best_time_tag tags p = some ((candidatesOf tags p).get ⟨i, hi⟩)) ∧
    ((∀ c ∈ candidatesOf tags p, hasTzSuffix c.2 = false) →
      ∀ c l, candidatesOf tags p = c :: l → pick_best_time_tag tags p = some c) ∧
    (pick_best_time_tag tags p = none ↔ candidatesOf tags p = [] ∧
      ∀ kv ∈ tags, ¬((("CreateDate".toList).isSuffixOf kv.1 = true ∨
          ("DateTimeOriginal".toList).isSuffixOf kv.1 = true) ∧ pyStrip kv.2 ≠ [])) := by
  refine ⟨?_, ?_, ?_⟩
  · intro i hi hp hprev
    unfold pick_best_time_tag
    rw [find?_first_get _ _ i hi hp hprev]
  · intro hall c l hc
    unfold pick_best_time_tag
    rw [List.find?_eq_none.mpr (fun a ha => by simp [hall a ha]), hc]
  · unfold pick_best_time_tag
    constructor
    · intro h
      match hf : (candidatesOf tags p).find? (fun c => hasTzSuffix c.2) with
      | some c => rw [hf] at h; simp at h
      | none =>
        rw [hf] at h
        match hc : candidatesOf tags p with
        | c :: l => rw [hc] at h; simp at h
        | [] =>
          rw [hc] at h
          refine ⟨rfl, ?_⟩
          unfold lastResortScan at h
          rw [Option.map_eq_none'] at h
          rw [List.find?_eq_none] at h
          intro kv hkv hcond
          apply h kv hkv
          obtain ⟨hor, hne⟩ := hcond
          simp only [Bool.and_eq_true, Bool.or_eq_true, Bool.not_eq_true']
          refine ⟨hor, ?_⟩
          simpa [List.isEmpty_iff] using hne
    · rintro ⟨hc, hlast⟩
      rw [hc]
      simp only [List.find?_nil]
      unfold lastResortScan
      rw [List.find?_eq_none.mpr ?_, Option.map_none']
      intro kv hkv hpred
      apply hlast kv hkv
      simp only [Bool.and_eq_true, Bool.or_eq_true, Bool.not_eq_true'] at hpred
      obtain ⟨hor, hne⟩ := hpred
      exact ⟨hor, by simpa [List.isEmpty_iff] using hne⟩

/-- Witness for C3 at the specification's example: the offset-bearing
`XMP:CreateDate` outranks the naive, higher-priority `EXIF:CreateDate`. -/
theorem c3_witness :
    pick_best_time_tag
      [("EXIF:CreateDate".toList, "2023:01:01 00:00:00".toList),
       ("XMP:CreateDate".toList, "2023:01:01 08:00:00+08:00".toList)]
      ⟨"a".toList, ".jpg".toList, true⟩ =
      some ("XMP:CreateDate".toList, "2023:01:01 08:00:00+08:00".toList) := by
  have h := (c3_selector_precedence
    [("EXIF:CreateDate".toList, "2023:01:01 00:00:00".toList),
     ("XMP:CreateDate".toList, "2023:01:01 08:00:00+08:00".toList)]
    ⟨"a".toList, ".jpg".toList, true⟩).1 1 (by decide) (by decide) (by decide)
  exact h.trans (by decide)

/-! ## Claim C1: metadata field sets -/

/-- C1 counterexample: for a video path the metadata write issues eight
field assignments, not seven as the claim states. -/
theorem c1_counterexample :
    (assignmentsOf (set_metadata_args ⟨"a".toList, ".mp4".toList, true⟩
      ("2020:01:01 00:00:00".toList))).length = 8 ∧
    (assignmentsOf (set_metadata_args ⟨"a".toList, ".mp4".toList, true⟩
      ("2020:01:01 00:00:00".toList))).length ≠ 7 := by
  exact ⟨by decide, by decide⟩

/-- C1 (amended): for a photo path the metadata write sets exactly the three
fields original-capture date/time, creation date and modification date, each
to the same literal value string; for any non-photo (video or other) path it
sets exactly eight fields, each to the same literal value string. -/
theorem c1_metadata_field_sets (p : MPath) (v : LC) :
    (is_photo p = true →
      set_metadata_args p v = "-overwrite_original".toList ::
        (PHOTO_WRITE_FIELDS.map (fun f => assignArg f v) ++ [pname p]) ∧
      PHOTO_WRITE_FIELDS.length = 3) ∧
    (is_photo p = false →
      set_metadata_args p v = "-overwrite_original".toList ::
        (VIDEO_WRITE_FIELDS.map (fun f => assignArg f v) ++ [pname p]) ∧
      VIDEO_WRITE_FIELDS.length = 8) := by
  constructor
  · intro h
    unfold set_metadata_args
    rw [if_pos h]
    exact ⟨rfl, rfl⟩
  · intro h
    unfold set_metadata_args
    rw [if_neg (by simp [h])]
    exact ⟨rfl, rfl⟩

/-- Witness for C1 at a concrete photo path and a concrete video path. -/
theorem c1_witness :
    (set_metadata_args ⟨"a".toList, ".jpg".toList, true⟩ ("2020:01:01 00:00:00".toList) =
      "-overwrite_original".toList ::
        (PHOTO_WRITE_FIELDS.map (fun f => assignArg f ("2020:01:01 00:00:00".toList)) ++
          [pname ⟨"a".toList, ".jpg".toList, true⟩]) ∧
      PHOTO_WRITE_FIELDS.length = 3) ∧
    (set_metadata_args ⟨"b".toList, ".mp4".toList, true⟩ ("2020:01:01 00:00:00".toList) =
      "-overwrite_original".toList ::
        (VIDEO_WRITE_FIELDS.map (fun f => assignArg f ("2020:01:01 00:00:00".toList)) ++
          [pname ⟨"b".toList, ".mp4".toList, true⟩]) ∧
      VIDEO_WRITE_FIELDS.length = 8) :=
  ⟨(c1_metadata_field_sets ⟨"a".toList, ".jpg".toList, true⟩ _).1 (by decide),
   (c1_metadata_field_sets ⟨"b".toList, ".mp4".toList, true⟩ _).2 (by decide)⟩

/-! ## Claim C7: filesystem write fallback -/

/-- C7: the filesystem writer first issues one invocation setting both
create-time and modify-time; if it succeeds the result is success and the
retry command is never consulted; if it fails, a retry setting only
modify-time is issued, whose success yields overall success with the message
annotated `(create date unsupported)`; if both fail, the result is failure
with both captured outputs concatenated. -/
theorem c7_filesystem_write_fallback (p : MPath) (v : LC) :
    fsCmdBoth p v = ["exiftool".toList, "-overwrite_original".toList,
      assignArg ("FileCreateDate".toList) v, assignArg ("FileModifyDate".toList) v,
      pname p] ∧
    fsCmdModOnly p v = ["exiftool".toList, "-overwrite_original".toList,
      assignArg ("FileModifyDate".toList) v, pname p] ∧
    (∀ run out, run (fsCmdBoth p v) = .ok out →
      set_filesystem_dates_from_value run p v = (true, pyStrip out)) ∧
    (∀ run m out2, run (fsCmdBoth p v) = .error m → run (fsCmdModOnly p v) = .ok out2 →
      set_filesystem_dates_from_value run p v =
        (true, "(create date unsupported) ".toList ++ pyStrip out2)) ∧
    (∀ run m m2, run (fsCmdBoth p v) = .error m → run (fsCmdModOnly p v) = .error m2 →
      set_filesystem_dates_from_value run p v = (false, m ++ '\n' :: m2)) := by
  refine ⟨rfl, rfl, ?_, ?_, ?_⟩
  · intro run out h
    unfold set_filesystem_dates_from_value
    rw [h]
  · intro run m out2 h1 h2
    unfold set_filesystem_dates_from_value
    rw [h1, h2]
  · intro run m m2 h1 h2
    unfold set_filesystem_dates_from_value
    rw [h1, h2]

/-- Witness for C7: the three scenarios at concrete oracles. -/
theorem c7_witness :
    set_filesystem_dates_from_value (fun _ => .ok []) ⟨"a".toList, ".jpg".toList, true⟩
      ("2020:01:01 00:00:00".toList) = (true, []) ∧
    set_filesystem_dates_from_value
      (fun c => if c = fsCmdBoth ⟨"a".toList, ".jpg".toList, true⟩ ("2020:01:01 00:00:00".toList)
        then Except.error ("e1".toList) else Except.ok ("o2".toList))
      ⟨"a".toList, ".jpg".toList, true⟩ ("2020:01:01 00:00:00".toList) =
      (true, "(create date unsupported) o2".toList) ∧
    set_filesystem_dates_from_value (fun _ => .error ("e".toList))
      ⟨"a".toList, ".jpg".toList, true⟩ ("2020:01:01 00:00:00".toList) =
      (false, "e\ne".toList) := by
  refine ⟨?_, ?_, ?_⟩
  · exact (c7_filesystem_write_fallback _ _).2.2.1 _ [] rfl
  · exact ((c7_filesystem_write_fallback _ _).2.2.2.1 _ ("e1".toList) ("o2".toList)
      rfl rfl).trans (by decide)
  · exact ((c7_filesystem_write_fallback _ _).2.2.2.2 _ ("e".toList) ("e".toList)
      rfl rfl).trans (by decide)

/-! ## Claim C8: restore-mode error sequencing -/

/-- C8: in restore mode, once a tag is picked and adjusted, a failing
metadata write makes the file fail with the metadata-failure message and
fully determines the outcome (the filesystem write is not consulted); a
successful metadata write followed by a failing filesystem write fails with
the distinct partial-outcome message; and the file succeeds exactly when
both writes succeed. -/
theorem c8_restore_error_sequencing (run : Cmd → ToolResult) (p : MPath) (sh : Int)
    (so : Option LC) (tags : List (LC × LC)) (tg v adj : LC)
    (hpick : pick_best_time_tag tags p = some (tg, v))
    (hadj : apply_time_adjustments v sh so = .ok adj) :
    (∀ m1, run (metaCmd p adj) = .error m1 →
      restore_from_own_metadata (.ok tags) run p sh so =
        (pname p, false, "Set metadata failed from ".toList ++ tg ++ '=' :: v ++
          " -> ".toList ++ adj ++ ": ".toList ++ m1)) ∧
    (∀ o1 m2, run (metaCmd p adj) = .ok o1 →
      set_filesystem_dates_from_value run p adj = (false, m2) →
      restore_from_own_metadata (.ok tags) run p sh so =
        (pname p, false, "Metadata OK, filesystem FAILED: ".toList ++ m2)) ∧
    ((restore_from_own_metadata (.ok tags) run p sh so).2.1 = true ↔
      (set_metadata_dates_from_value run p adj).1 = true ∧
      (set_filesystem_dates_from_value run p adj).1 = true) := by
  refine ⟨?_, ?_, ?_⟩
  · intro m1 hm1
    simp [restore_from_own_metadata, hpick, hadj, set_metadata_dates_from_value, hm1]
  · intro o1 m2 hm1 hfs
    simp [restore_from_own_metadata, hpick, hadj, set_metadata_dates_from_value, hm1, hfs]
  · cases hm : run (metaCmd p adj) with
    | error m1 =>
      simp [restore_from_own_metadata, hpick, hadj, set_metadata_dates_from_value, hm]
    | ok o1 =>
      cases hf : set_filesystem_dates_from_value run p adj with
      | mk okf mf =>
        cases okf with
        | false =>
          simp [restore_from_own_metadata, hpick, hadj, set_metadata_dates_from_value, hm, hf]
        | true =>
          simp [restore_from_own_metadata, hpick, hadj, set_metadata_dates_from_value, hm, hf]

/-- Witness for C8: with an always-failing oracle the restore reports the
metadata-failure message. -/
theorem c8_witness :
    restore_from_own_metadata
      (.ok [("EXIF:DateTimeOriginal".toList, "2020:05:01 12:00:00".toList)])
      (fun _ => .error ("boom".toList)) ⟨"a".toList, ".jpg".toList, true⟩ 0 none =
      ("a.jpg".toList, false,
       ("Set metadata failed from EXIF:DateTimeOriginal=2020:05:01 12:00:00" ++
        " -> 2020:05:01 12:00:00: boom").toList) := by
  have h := (c8_restore_error_sequencing (fun _ => .error ("boom".toList))
    ⟨"a".toList, ".jpg".toList, true⟩ 0 none
    [("EXIF:DateTimeOriginal".toList, "2020:05:01 12:00:00".toList)]
    ("EXIF:DateTimeOriginal".toList) ("2020:05:01 12:00:00".toList)
    ("2020:05:01 12:00:00".toList) (by decide) rfl).1 ("boom".toList) rfl
  exact h.trans (by decide)

/-! ## Claim C9: sync-then-shift targets the destination -/

/-- C9: in sync mode with an adjustment requested (nonzero shift or offset
override), a failed as-is copy ends the file with the copy-failure message
and no adjustment is attempted; when both as-is copies succeed, the
timestamp to adjust is re-derived from the destination's queried tags (the
source's tags are never consulted — the query oracle is only constrained at
the destination), and the adjusted value is written to the destination's
metadata fields and filesystem timestamps, the file succeeding exactly when
both of those writes succeed. -/
theorem c9_sync_adjustment_post_copy (run : Cmd → ToolResult)
    (q : MPath → Except LC (List (LC × LC))) (src dst : MPath) (sh : Int) (so : Option LC)
    (tags : List (LC × LC)) (tg v adj : LC)
    (hreq : sh ≠ 0 ∨ optTruthy so = true) :
    (∀ m1, run (syncMetaCmd src dst) = .error m1 →
      sync_from_source run q src dst sh so =
        .ok (false, "Copy metadata failed: ".toList ++ m1)) ∧
    (∀ o1 o2, run (syncMetaCmd src dst) = .ok o1 → run (syncFsCmdBoth src dst) = .ok o2 →
      q dst = .ok tags → pick_best_time_tag tags dst = some (tg, v) →
      apply_time_adjustments v sh so = .ok adj →
      sync_from_source run q src dst sh so =
        .ok (if (set_metadata_dates_from_value run dst adj).1 &&
              (set_filesystem_dates_from_value run dst adj).1
          then (true, "Synced then shifted -> ".toList ++ adj)
          else (false, "Post-sync shift failed to apply".toList))) := by
  have hcond : (decide (sh ≠ 0) || optTruthy so) = true := by
    rcases hreq with h | h <;> simp [h]
  constructor
  · intro m1 hm1
    simp [sync_from_source, sync_copy_metadata_from_src, hm1]
  · intro o1 o2 hm1 hm2 hq hpick hadj
    simp only [sync_from_source, sync_copy_metadata_from_src,
      sync_copy_filesystem_dates_from_src, hm1, hm2, hcond, hq, hpick, hadj]
    by_cases hok : ((set_metadata_dates_from_value run dst adj).1 &&
        (set_filesystem_dates_from_value run dst adj).1) = true
    · simp [hok]
    · simp [hok]

/-- Witness for C9: with all-succeeding oracles and an offset-override
request, the destination's tag is re-read, adjusted and written. -/
theorem c9_witness :
    sync_from_source (fun _ => .ok [])
      (fun _ => .ok [("EXIF:DateTimeOriginal".toList, "2020:05:01 12:00:00".toList)])
      ⟨"s".toList, ".mov".toList, true⟩ ⟨"d".toList, ".mp4".toList, true⟩ 0 (some ['Z']) =
      .ok (true, "Synced then shifted -> 2020:05:01 12:00:00Z".toList) := by
  have h := (c9_sync_adjustment_post_copy (fun _ => .ok [])
    (fun _ => .ok [("EXIF:DateTimeOriginal".toList, "2020:05:01 12:00:00".toList)])
    ⟨"s".toList, ".mov".toList, true⟩ ⟨"d".toList, ".mp4".toList, true⟩ 0 (some ['Z'])
    [("EXIF:DateTimeOriginal".toList, "2020:05:01 12:00:00".toList)]
    ("EXIF:DateTimeOriginal".toList) ("2020:05:01 12:00:00".toList)
    ("2020:05:01 12:00:00Z".toList) (Or.inr (by decide))).2 [] [] rfl rfl rfl
    (by decide) rfl
  exact h.trans rfl

/-! ## Claim C10: source index extension handling -/

theorem alookup_bucketInsert (b : List (LC × List MPath)) (e ext : LC) (pth : MPath) :
    alookup ext (bucketInsert b e pth) =
      if e = ext then some (((alookup ext b).getD []) ++ [pth]) else alookup ext b := by
  induction b with
  | nil =>
    by_cases he : e = ext <;> simp [bucketInsert, alookup, he]
  | cons hd rest ih =>
    obtain ⟨e0, ps0⟩ := hd
    by_cases he0 : e0 = e
    · subst he0
      by_cases hex : e0 = ext <;> simp [bucketInsert, alookup, hex]
    · by_cases hex : e0 = ext
      · have hne : ¬ e = ext := fun h => he0 (hex.trans h.symm)
        have hne2 : ¬ ext = e := fun h => hne h.symm
        simp [bucketInsert, alookup, he0, hex, hne, hne2]
      · simp [bucketInsert, alookup, he0, hex, ih]

theorem idxBucket_cons_ne {k0 key : LC} (h : ¬ k0 = key) (b0 : List (LC × List MPath))
    (idx : SrcIndex) (ext : LC) :
    idxBucket ((k0, b0) :: idx) key ext = idxBucket idx key ext := by
  simp [idxBucket, alookup, h]

theorem idxBucket_cons_eq (b0 : List (LC × List MPath)) (idx : SrcIndex) (key ext : LC) :
    idxBucket ((key, b0) :: idx) key ext = (alookup ext b0).getD [] := by
  simp [idxBucket, alookup]

theorem idxBucket_indexInsert (idx : SrcIndex) (k e key ext : LC) (pth : MPath) :
    idxBucket (indexInsert idx k e pth) key ext =
      if k = key ∧ e = ext then idxBucket idx key ext ++ [pth]
      else idxBucket idx key ext := by
  induction idx with
  | nil =>
    by_cases hk : k = key
    · subst hk
      by_cases he : e = ext
      · subst he; simp [indexInsert, idxBucket, alookup]
      · simp [indexInsert, idxBucket, alookup, he]
    · simp [indexInsert, idxBucket, alookup, hk]
  | cons hd rest ih =>
    obtain ⟨k0, b0⟩ := hd
    by_cases hk0 : k0 = k
    · subst hk0
      have hins : indexInsert ((k0, b0) :: rest) k0 e pth =
          (k0, bucketInsert b0 e pth) :: rest := by
        simp [indexInsert]
      rw [hins]
      by_cases hkey : k0 = key
      · subst hkey
        rw [idxBucket_cons_eq, idxBucket_cons_eq, alookup_bucketInsert]
        by_cases he : e = ext <;> simp [he]
      · rw [idxBucket_cons_ne hkey, idxBucket_cons_ne hkey]
        simp [hkey]
    · have hins : indexInsert ((k0, b0) :: rest) k e pth =
          (k0, b0) :: indexInsert rest k e pth := by
        simp [indexInsert, hk0]
      rw [hins]
      by_cases hkey : k0 = key
      · subst hkey
        have hne : ¬ k = k0 := fun h => hk0 h.symm
        rw [idxBucket_cons_eq, idxBucket_cons_eq]
        simp [hne]
      · rw [idxBucket_cons_ne hkey, idxBucket_cons_ne hkey, ih]

theorem build_aux (ci : Bool) (key ext : LC) (x : MPath) :
    ∀ (files : List MPath) (idx : SrcIndex),
      x ∈ idxBucket (files.foldl (fun idx p => if p.isFile && !is_hidden p then
          indexInsert idx (stemKey p ci) (pyLower p.suffix) p else idx) idx) key ext ↔
      (x ∈ idxBucket idx key ext ∨ (x ∈ files ∧ x.isFile = true ∧ is_hidden x = false ∧
        stemKey x ci = key ∧ pyLower x.suffix = ext)) := by
  intro files
  induction files with
  | nil => intro idx; simp
  | cons f fs ih =>
    intro idx
    simp only [List.foldl_cons]
    rw [ih]
    by_cases hcond : (f.isFile && !is_hidden f) = true
    · rw [if_pos hcond]
      rw [idxBucket_indexInsert]
      simp only [Bool.and_eq_true, Bool.not_eq_true'] at hcond
      obtain ⟨hcf, hch⟩ := hcond
      by_cases hmatch : stemKey f ci = key ∧ pyLower f.suffix = ext
      · rw [if_pos hmatch]
        simp only [List.mem_append, List.mem_cons, List.not_mem_nil, or_false]
        constructor
        · rintro ((hx | rfl) | ⟨hxfs, hrest⟩)
          · exact Or.inl hx
          · exact Or.inr ⟨Or.inl rfl, hcf, hch, hmatch.1, hmatch.2⟩
          · exact Or.inr ⟨Or.inr hxfs, hrest⟩
        · rintro (hx | ⟨(rfl | hxfs), hrest⟩)
          · exact Or.inl (Or.inl hx)
          · exact Or.inl (Or.inr rfl)
          · exact Or.inr ⟨hxfs, hrest⟩
      · rw [if_neg hmatch]
        simp only [List.mem_cons]
        constructor
        · rintro (hx | ⟨hxfs, hrest⟩)
          · exact Or.inl hx
          · exact Or.inr ⟨Or.inr hxfs, hrest⟩
        · rintro (hx | ⟨(rfl | hxfs), hrest⟩)
          · exact Or.inl hx
          · exact absurd ⟨hrest.2.2.1, hrest.2.2.2⟩ hmatch
          · exact Or.inr ⟨hxfs, hrest⟩
    · rw [if_neg hcond]
      simp only [Bool.and_eq_true, Bool.not_eq_true', not_and_or] at hcond
      simp only [List.mem_cons]
      constructor
      · rintro (hx | ⟨hxfs, hrest⟩)
        · exact Or.inl hx
        · exact Or.inr ⟨Or.inr hxfs, hrest⟩
      · rintro (hx | ⟨(rfl | hxfs), hrest⟩)
        · exact Or.inl hx
        · rcases hcond with hc | hc
          · exact absurd hrest.1 (by simp [hc])
          · exact absurd hrest.2.1 (by simp [hc])
        · exact Or.inr ⟨hxfs, hrest⟩

theorem build_bucket_mem (files : List MPath) (ci : Bool) (key ext : LC) (x : MPath) :
    x ∈ idxBucket (build_source_index files ci) key ext ↔
      x ∈ files ∧ x.isFile = true ∧ is_hidden x = false ∧
        stemKey x ci = key ∧ pyLower x.suffix = ext := by
  have h := build_aux ci key ext x files []
  rw [build_source_index]
  rw [h]
  simp [idxBucket, alookup]

theorem find_of_exact_bucket {idx : SrcIndex} {target : MPath} {ci : Bool} {m : MPath}
    {rest : List MPath}
    (h : idxBucket idx (stemKey target ci) (pyLower target.suffix) = m :: rest) :
    find_source_match idx target ci = some m := by
  unfold find_source_match
  unfold idxBucket at h
  cases hk : alookup (stemKey target ci) idx with
  | none => rw [hk] at h; simp [alookup] at h
  | some b =>
    rw [hk] at h
    simp only [Option.getD_some] at h
    cases he : alookup (pyLower target.suffix) b with
    | none => rw [he] at h; simp at h
    | some ps =>
      rw [he] at h
      simp only [Option.getD_some] at h
      subst h
      simp [hk, he]

/-- C10: in the source index, extensions are compared case-insensitively on
both sides regardless of the case-insensitive flag.  First, a path sits in
the exact-match bucket consulted for a target precisely when it is an
indexed (non-hidden regular) file whose stem key (exact stem when the flag
is off, lowercased stem when it is on) matches the target's and whose
lowercased extension equals the target's lowercased extension.  Second, any
indexed source matching the target's stem whose extension differs from the
target's only in letter case is found as an exact stem-plus-extension
match. -/
theorem c10_extension_case_insensitive (files : List MPath) (ci : Bool) (target : MPath) :
    (∀ x, x ∈ idxBucket (build_source_index files ci) (stemKey target ci)
        (pyLower target.suffix) ↔
      x ∈ files ∧ x.isFile = true ∧ is_hidden x = false ∧
        stemKey x ci = stemKey target ci ∧ pyLower x.suffix = pyLower target.suffix) ∧
    (∀ src, src ∈ files → src.isFile = true → is_hidden src = false →
      stemKey src ci = stemKey target ci → pyLower src.suffix = pyLower target.suffix →
      ∃ m, find_source_match (build_source_index files ci) target ci = some m ∧
        m ∈ files ∧ m.isFile = true ∧ is_hidden m = false ∧
        stemKey m ci = stemKey target ci ∧ pyLower m.suffix = pyLower target.suffix) := by
  constructor
  · intro x
    exact build_bucket_mem files ci _ _ x
  · intro src hmem hf hh hstem hext
    have hb : src ∈ idxBucket (build_source_index files ci) (stemKey target ci)
        (pyLower target.suffix) :=
      (build_bucket_mem files ci _ _ src).mpr ⟨hmem, hf, hh, hstem, hext⟩
    obtain ⟨m, rest, hbs⟩ := List.exists_cons_of_ne_nil (List.ne_nil_of_mem hb)
    have hmm : m ∈ idxBucket (build_source_index files ci) (stemKey target ci)
        (pyLower target.suffix) := by
      rw [hbs]; exact List.mem_cons_self ..
    obtain ⟨hm1, hm2, hm3, hm4, hm5⟩ := (build_bucket_mem files ci _ _ m).mp hmm
    exact ⟨m, find_of_exact_bucket hbs, hm1, hm2, hm3, hm4, hm5⟩

/-- Witness for C10: with case-insensitive matching disabled, a source
`IMG_001.MOV` is still the exact match for target `IMG_001.mov`. -/
theorem c10_witness :
    ∃ m, find_source_match
        (build_source_index [⟨"IMG_001".toList, ".MOV".toList, true⟩] false)
        ⟨"IMG_001".toList, ".mov".toList, true⟩ false = some m ∧
      m ∈ [(⟨"IMG_001".toList, ".MOV".toList, true⟩ : MPath)] ∧ m.isFile = true ∧
      is_hidden m = false ∧
      stemKey m false = stemKey ⟨"IMG_001".toList, ".mov".toList, true⟩ false ∧
      pyLower m.suffix = pyLower (⟨"IMG_001".toList, ".mov".toList, true⟩ : MPath).suffix :=
  (c10_extension_case_insensitive [⟨"IMG_001".toList, ".MOV".toList, true⟩] false
    ⟨"IMG_001".toList, ".mov".toList, true⟩).2 ⟨"IMG_001".toList, ".MOV".toList, true⟩
    (by decide) (by decide) (by decide) (by decide) (by decide)

end Syncdate
